import Mathlib

/-! Verification development for the `survey-exporter` repository.

The file shallowly embeds `src/survey_exporter/main.py`: Python strings
become Lean `String`s (worked on through their `List Char` data), Python
dicts built by insertion become association lists in insertion order,
raised exceptions become `Except` errors, and the network and filesystem
become explicit oracles/state threaded through the functions.  Each
definition names the Python function or fragment it embeds. -/

namespace SurveyExporter

/-! ## Python string primitives -/

/-- Splits a character list at the first occurrence of the needle `sep`:
`some (pre, post)` with the needle removed, `none` when `sep` does not
occur.  `(listSplitFirst sep l).isSome` models Python's substring
membership `sep in l`, and `post` models `l.split(sep, 1)[1]`. -/
def listSplitFirst (sep : List Char) : List Char → Option (List Char × List Char)
  | [] => if sep.isEmpty then some ([], []) else none
  | c :: cs =>
    if sep.isPrefixOf (c :: cs) then some ([], (c :: cs).drop sep.length)
    else
      match listSplitFirst sep cs with
      | some (pre, post) => some (c :: pre, post)
      | none => none

/-- Python `sub in s` (substring membership). -/
def pyContainsSub (sub s : String) : Bool :=
  (listSplitFirst sub.data s.data).isSome

/-- Python `s.split(sep, 1)[1]`, i.e. everything after the first occurrence
of `sep`; returns `s` itself when `sep` does not occur (the source only
evaluates this under an `in` guard). -/
def pySplitFirstAfter (sep s : String) : String :=
  match listSplitFirst sep.data s.data with
  | some (_, post) => String.mk post
  | none => s

/-- Python `s.rsplit(sep, 1)[-1]` for a one-character separator: the part
of `s` after the last occurrence of `sep`, or all of `s` when `sep` does
not occur. -/
def pyRsplitLast (sep : Char) (s : String) : String :=
  String.mk ((s.data.reverse.takeWhile (fun c => c != sep)).reverse)

/-! ## `urllib.parse.urlparse`: the path component

`media_suffix` uses only `urlparse(url).path`; the definitions below
follow CPython's `urlsplit` (lstrip C0-control/space, remove tab/CR/LF,
strip a scheme, split off the netloc with the IPv6 bracket check, drop
fragment then query) and `_splitparams`.  The bracket balance check,
present in every CPython version, is modelled.  The further host
validations — `_checknetloc`'s NFKC check, which can only fire on a
non-ASCII netloc, and `_check_bracketed_host` (CPython ≥ 3.11), which
only runs when the netloc contains `[` — are not modelled: on URLs whose
netloc is ASCII and bracket-free (see `netlocSimple`) both provably
return without raising, so there the embedding is exact; elsewhere the
model can return `Except.ok` where the program raises (e.g. `//℀`), and
the theorems about the parse carry a `netlocSimple` guard. -/

/-- Characters allowed in a URL scheme (`urllib.parse.scheme_chars`):
ASCII letters, digits, plus, minus and dot. -/
def schemeChar (c : Char) : Bool :=
  c.isAlpha || c.isDigit || c == '+' || c == '-' || c == '.'

/-- The WHATWG C0-control-or-space class, stripped from both ends of the
URL by `urlsplit`. -/
def isC0OrSpace (c : Char) : Bool := c.toNat ≤ 0x20

/-- Tab, CR and LF, removed everywhere in the URL by `urlsplit`. -/
def isUnsafeUrlByte (c : Char) : Bool := c == '\t' || c == '\r' || c == '\n'

/-- The scheme strip of `urlsplit`: when the first `:` is at a positive
index, the first character is an ASCII letter and everything before the
`:` is in `scheme_chars`, the scheme and the `:` are removed. -/
def dropScheme (l : List Char) : List Char :=
  match l.findIdx? (fun c => c == ':') with
  | none => l
  | some i =>
    if i != 0 && (l.take 1).all (fun c => c.isAlpha) && (l.take i).all schemeChar
    then l.drop (i + 1) else l

/-- The netloc of CPython `_splitnetloc(url, 2)`: from index 2 up to the
first of `/`, `?`, `#`. -/
def netlocOf (l : List Char) : List Char :=
  (l.drop 2).takeWhile (fun c => c != '/' && c != '?' && c != '#')

/-- CPython `_splitnetloc` plus the IPv6 bracket check of `urlsplit`: when
the remaining URL starts with `//`, the netloc extends to the first of
`/`, `?`, `#` and the rest (delimiter kept) continues as the path part;
unbalanced square brackets in the netloc raise
`ValueError("Invalid IPv6 URL")`. -/
def splitNetloc (l : List Char) : Except String (List Char) :=
  if l.take 2 == ['/', '/'] then
    if ((netlocOf l).contains '[' && !(netlocOf l).contains ']')
        || ((netlocOf l).contains ']' && !(netlocOf l).contains '[') then
      Except.error "Invalid IPv6 URL"
    else
      Except.ok ((l.drop 2).dropWhile (fun c => c != '/' && c != '?' && c != '#'))
  else Except.ok l

/-- Python `url.split(c, 1)[0]`: everything before the first occurrence of
`c` (all of `url` when `c` does not occur).  `urlsplit` uses this to drop
the fragment and then the query. -/
def dropFrom (sep : Char) (l : List Char) : List Char :=
  l.takeWhile (fun c => c != sep)

/-- Python `s.rfind(c)` as an optional index of the last occurrence. -/
def pyRfindIdx (c : Char) (l : List Char) : Option Nat :=
  match l.reverse.findIdx? (fun x => x == c) with
  | none => none
  | some k => some (l.length - 1 - k)

/-- CPython `_splitparams` restricted to the path part: `urlparse` splits
`;params` off the last path segment when the path contains `;`. -/
def splitParamsPath (l : List Char) : List Char :=
  if l.contains ';' then
    match pyRfindIdx '/' l with
    | some j =>
      match (l.drop j).findIdx? (fun c => c == ';') with
      | some k => l.take (j + k)
      | none => l
    | none => l.takeWhile (fun c => c != ';')
  else l

/-- The initial cleanup of `urlsplit`: strip leading C0-control/space
characters (only leading ones — CPython preserves trailing space), then
remove every tab, CR and LF. -/
def stripUrl (url : String) : List Char :=
  (url.data.dropWhile isC0OrSpace).filter (fun c => !isUnsafeUrlByte c)

/-- The domain on which the urlsplit embedding is exact: the URL has no
netloc, or its netloc is pure ASCII (so `_checknetloc` returns at its
`isascii()` shortcut) and free of `[` (so the bracketed-host validation
of CPython ≥ 3.11 never runs, and the only possible parse failure — in
every CPython version — is the `Invalid IPv6 URL` balance check). -/
def netlocSimple (url : String) : Bool :=
  if (dropScheme (stripUrl url)).take 2 == ['/', '/'] then
    (netlocOf (dropScheme (stripUrl url))).all
      (fun c => c.toNat < 128 && c != '[')
  else true

/-- The `path` component of `urllib.parse.urlparse(url)`.  The error case
carries the `ValueError` message the parse can raise. -/
def urlparsePath (url : String) : Except String String :=
  match splitNetloc (dropScheme (stripUrl url)) with
  | Except.error e => Except.error e
  | Except.ok l4 =>
    Except.ok (String.mk (splitParamsPath (dropFrom '?' (dropFrom '#' l4))))

/-- `media_suffix` from `src/survey_exporter/main.py`: if the literal
substring `private/` occurs in the URL, everything after its first
occurrence; otherwise the last `/`-separated segment of the parsed path.
The Python function lets a `ValueError` raised by `urlparse` escape, so
the embedding returns `Except`. -/
def media_suffix (url : String) : Except String String :=
  if pyContainsSub "private/" url then
    Except.ok (pySplitFirstAfter "private/" url)
  else
    match urlparsePath url with
    | Except.ok path => Except.ok (pyRsplitLast '/' path)
    | Except.error e => Except.error e

/-! ## JSON values and Python-level operations

`get_entries` receives `json.load`'s result.  JSON values are modelled by
`JVal` (numbers as integers; float formatting is irrelevant to every
claim).  Python exceptions raised while processing them are modelled by
`PyErr`; the `TypeError`/`KeyError` messages are abbreviated, no claim
inspects them. -/

inductive JVal where
  | null
  | bool (b : Bool)
  | num (n : Int)
  | str (s : String)
  | arr (xs : List JVal)
  | obj (kvs : List (String × JVal))

/-- The Python exceptions the embedded code can raise. -/
inductive PyErr where
  | runtimeError (msg : String)
  | valueError (msg : String)
  | typeError (msg : String)
  | keyError (msg : String)
  | attributeError (msg : String)

/-- Whether an `Except` value is a success. -/
def exceptOk {ε α : Type} : Except ε α → Bool
  | Except.ok _ => true
  | Except.error _ => false

mutual

/-- Python `repr`; the quoting/escaping subtleties of `repr` for strings
are elided — no claim depends on container formatting. -/
def pyRepr : JVal → String
  | JVal.null => "None"
  | JVal.bool true => "True"
  | JVal.bool false => "False"
  | JVal.num n => toString n
  | JVal.str s => "'" ++ s ++ "'"
  | JVal.arr xs => "[" ++ pyReprArr xs ++ "]"
  | JVal.obj kvs => "\x7b" ++ pyReprObj kvs ++ "\x7d"

/-- Comma-separated `repr`s of a list's elements. -/
def pyReprArr : List JVal → String
  | [] => ""
  | [v] => pyRepr v
  | v :: rest => pyRepr v ++ ", " ++ pyReprArr rest

/-- Comma-separated `key: value` `repr`s of a dict's items. -/
def pyReprObj : List (String × JVal) → String
  | [] => ""
  | [(k, v)] => "'" ++ k ++ "': " ++ pyRepr v
  | (k, v) :: rest => "'" ++ k ++ "': " ++ pyRepr v ++ ", " ++ pyReprObj rest

end

/-- Python `str(v)` for a JSON value. -/
def pyStr : JVal → String
  | JVal.str s => s
  | v => pyRepr v

/-- Lookup in a Python dict built by `json.load`: duplicate keys in the
JSON text keep the last occurrence, hence the reversed search. -/
def dictGet (kvs : List (String × JVal)) (k : String) : Option JVal :=
  match kvs.reverse.find? (fun p => p.1 == k) with
  | some p => some p.2
  | none => none

/-- Python `target in d` for a JSON value `d`: key membership for dicts,
element equality for lists (a string only equals a string), substring
test for strings, `TypeError` for the non-iterable scalars. -/
def pyInResult (target : String) (d : JVal) : Except PyErr Bool :=
  match d with
  | JVal.obj kvs => Except.ok (kvs.any (fun p => p.1 == target))
  | JVal.arr xs =>
    Except.ok (xs.any (fun v => match v with | JVal.str s => s == target | _ => false))
  | JVal.str s => Except.ok (pyContainsSub target s)
  | JVal.null => Except.error (PyErr.typeError "argument of type 'NoneType' is not iterable")
  | JVal.bool _ => Except.error (PyErr.typeError "argument of type 'bool' is not iterable")
  | JVal.num _ => Except.error (PyErr.typeError "argument of type 'int' is not iterable")

/-- Python `d[target]` for a string subscript: dict lookup; lists and
strings reject string indices with `TypeError`. -/
def pyIndexResult (d : JVal) (target : String) : Except PyErr JVal :=
  match d with
  | JVal.obj kvs =>
    match dictGet kvs target with
    | some v => Except.ok v
    | none => Except.error (PyErr.keyError target)
  | JVal.arr _ => Except.error (PyErr.typeError "list indices must be integers or slices, not str")
  | JVal.str _ => Except.error (PyErr.typeError "string indices must be integers")
  | _ => Except.error (PyErr.typeError "object is not subscriptable")

/-- `get_value` from `get_entries`:
`obj["data"][target] if isinstance(obj, dict) and "data" in obj and target in obj["data"] else None`.
The membership test and the subscript can raise when the record's `data`
member is not a dict. -/
def get_value (obj : JVal) (target : String) : Except PyErr (Option JVal) :=
  match obj with
  | JVal.obj kvs =>
    match dictGet kvs "data" with
    | some d =>
      match pyInResult target d with
      | Except.error e => Except.error e
      | Except.ok true =>
        match pyIndexResult d target with
        | Except.ok v => Except.ok (some v)
        | Except.error e => Except.error e
      | Except.ok false => Except.ok none
    | none => Except.ok none
  | _ => Except.ok none

/-- `Entry` from `src/survey_exporter/main.py`.  `breaches` is annotated
`list[str]` in the source, but Python does not enforce element types and
`get_entries` stores the raw list, so the embedding keeps `List JVal`.
`media_map` is the insertion-ordered dict from cleaned suffix to URL. -/
structure Entry where
  breaches : List JVal
  date : String
  time : String
  media_map : List (String × String)

/-- The media-value coercion in `get_entries`: a list stays, a single
string becomes a one-element list, anything else becomes empty. -/
def coerceMedia : Option JVal → List JVal
  | some (JVal.arr xs) => xs
  | some (JVal.str s) => [JVal.str s]
  | _ => []

/-- The breaches coercion in `get_entries`: a non-list becomes `[]`. -/
def coerceBreaches : Option JVal → List JVal
  | some (JVal.arr xs) => xs
  | _ => []

/-- The date/time coercion in `get_entries`:
`"" if v is None else str(v)`.  Python's `None` arises both when the
field is absent (`get_value`'s `else None`) and when the stored JSON
value is `null` (the looked-up value itself is `None`), so both coerce
to the empty string. -/
def coerceScalar : Option JVal → String
  | none => ""
  | some JVal.null => ""
  | some v => pyStr v

/-- First-match association-list lookup (`media_map[suffix]`; keys are
unique by construction, so first match equals Python's lookup). -/
def lookupFirst (m : List (String × String)) (k : String) : Option String :=
  match m.find? (fun p => p.1 == k) with
  | some p => some p.2
  | none => none

/-- The `ValueError` message of the duplicate-suffix check, exactly as the
f-strings in `get_entries` build it. -/
def dupMsg (suffix first current : String) : String :=
  "Duplicate media suffix '" ++ suffix ++ "': first URL '" ++ first ++
    "', current URL '" ++ current ++ "'. Please resolve the naming conflict."

/-- The media-map loop of `get_entries`: skip non-strings, compute each
URL's suffix (a raised `ValueError` from `media_suffix` propagates), fail
on a duplicate key, otherwise insert in order. -/
def buildMediaMapAux (acc : List (String × String)) :
    List JVal → Except PyErr (List (String × String))
  | [] => Except.ok acc
  | v :: rest =>
    match v with
    | JVal.str url =>
      match media_suffix url with
      | Except.error e => Except.error (PyErr.valueError e)
      | Except.ok suffix =>
        match lookupFirst acc suffix with
        | some firstUrl => Except.error (PyErr.valueError (dupMsg suffix firstUrl url))
        | none => buildMediaMapAux (acc ++ [(suffix, url)]) rest
    | _ => buildMediaMapAux acc rest

/-- One iteration of the `for item in data` loop of `get_entries`: the four
field lookups (in source order), the coercions, the media map, the built
`Entry`. -/
def processItem (bId dId tId mId : String) (item : JVal) : Except PyErr Entry :=
  match get_value item bId with
  | Except.error e => Except.error e
  | Except.ok breaches_val =>
  match get_value item dId with
  | Except.error e => Except.error e
  | Except.ok date_val =>
  match get_value item tId with
  | Except.error e => Except.error e
  | Except.ok time_val =>
  match get_value item mId with
  | Except.error e => Except.error e
  | Except.ok media_val =>
  match buildMediaMapAux [] (coerceMedia media_val) with
  | Except.error e => Except.error e
  | Except.ok mm =>
    Except.ok
      { breaches := coerceBreaches breaches_val
        date := coerceScalar date_val
        time := coerceScalar time_val
        media_map := mm }

/-- The whole record loop: the first raised exception aborts, otherwise
one `Entry` per raw record in input order. -/
def processItems (bId dId tId mId : String) : List JVal → Except PyErr (List Entry)
  | [] => Except.ok []
  | item :: rest =>
    match processItem bId dId tId mId item with
    | Except.error e => Except.error e
    | Except.ok e =>
      match processItems bId dId tId mId rest with
      | Except.error e2 => Except.error e2
      | Except.ok es => Except.ok (e :: es)

/-- The top-level `data` field as a list of raw records:
`payload.get("data") if isinstance(payload, dict) else None` followed by
the `isinstance(data, list)` check; `none` is the "no responses" case. -/
def dataItemsOf (payload : JVal) : Option (List JVal) :=
  match payload with
  | JVal.obj kvs =>
    match dictGet kvs "data" with
    | some (JVal.arr items) => some items
    | _ => none
  | _ => none

/-- `get_entries` from `src/survey_exporter/main.py`, abstracted over the
HTTP+JSON outcome `httpResult` (the result of its inner `http_get_json`:
either the decoded payload or the text of the raised exception).  The
`api_key`/`survey_id` arguments only shape the request and are absorbed
into the oracle. -/
def get_entries (bId dId tId mId : String) (httpResult : Except String JVal) :
    Except PyErr (List Entry) :=
  match httpResult with
  | Except.error e =>
    Except.error (PyErr.runtimeError ("Failed to fetch entries: " ++ e))
  | Except.ok payload =>
    match dataItemsOf payload with
    | some items => processItems bId dId tId mId items
    | none => Except.ok []

/-- The string elements of a raw media list, in order (the non-strings
are the ones `get_entries` skips). -/
def mediaStrings : List JVal → List String
  | [] => []
  | JVal.str s :: rest => s :: mediaStrings rest
  | _ :: rest => mediaStrings rest

/-- Whether a JSON value is a Python `str`. -/
def JVal.isStr : JVal → Bool
  | JVal.str _ => true
  | _ => false

/-- The computed suffixes of the string URLs of a media list (those whose
`media_suffix` succeeds). -/
def suffixesOf (l : List JVal) : List String :=
  (mediaStrings l).filterMap (fun u => (media_suffix u).toOption)

/-! ## HTML escaping and percent-decoding -/

/-- Python `s.replace(old, new)` for a one-character `old` (each escape in
the builder's `esc` replaces a single character). -/
def replaceChar (old : Char) (new : List Char) : List Char → List Char
  | [] => []
  | c :: cs => (if c = old then new else [c]) ++ replaceChar old new cs

/-- `esc` from `build_survey_responses_html`: the chain of `str.replace`
calls escaping `&` first, then `<`, `>`, `"`, `'`. -/
def esc (s : String) : String :=
  String.mk (replaceChar '\'' ("&#39;").data
    (replaceChar '"' ("&quot;").data
      (replaceChar '>' ("&gt;").data
        (replaceChar '<' ("&lt;").data
          (replaceChar '&' ("&amp;").data s.data)))))

/-- The escaping as the spec words it: one pass replacing each of the
five characters `&`, `<`, `>`, `"`, `'` by its HTML entity. -/
def escSpec (s : String) : String :=
  String.mk (List.flatten (s.data.map (fun c =>
    if c = '&' then ("&amp;").data
    else if c = '<' then ("&lt;").data
    else if c = '>' then ("&gt;").data
    else if c = '"' then ("&quot;").data
    else if c = '\'' then ("&#39;").data
    else [c])))

/-- ASCII hex digit test, as `%` escapes use it. -/
def isHexDigit (c : Char) : Bool :=
  c.isDigit || ('a' ≤ c && c ≤ 'f') || ('A' ≤ c && c ≤ 'F')

/-- The value of an ASCII hex digit. -/
def hexVal (c : Char) : Nat :=
  if c.isDigit then c.toNat - '0'.toNat
  else if 'a' ≤ c && c ≤ 'f' then c.toNat - 'a'.toNat + 10
  else c.toNat - 'A'.toNat + 10

/-- `urllib.parse.unquote`: `%XX` (two hex digits) becomes the character
with code point `XX`; anything else is kept.  CPython decodes the percent
bytes as UTF-8 with replacement; on ASCII escapes — the only ones any
claim exercises — the two agree, and multi-byte recombination is not
modelled. -/
def unquoteList : List Char → List Char
  | '%' :: a :: b :: rest =>
    if isHexDigit a && isHexDigit b then
      Char.ofNat (16 * hexVal a + hexVal b) :: unquoteList rest
    else '%' :: unquoteList (a :: b :: rest)
  | c :: rest => c :: unquoteList rest
  | [] => []

/-- `urllib.parse.unquote` on a string. -/
def pyUnquote (s : String) : String := String.mk (unquoteList s.data)

/-- `to_link` from the builder: href is the escaped (not decoded) filename
behind `media/`, the visible text is the decoded-then-escaped filename. -/
def to_link (s : String) : String :=
  "<a href=\"media/" ++ esc s ++ "\">" ++ esc (pyUnquote s) ++ "</a>"

/-- Python `sep.join(parts)`. -/
def joinSep (sep : String) : List String → String
  | [] => ""
  | [x] => x
  | x :: rest => x ++ sep ++ joinSep sep rest

/-! ## Path sanitisation -/

/-- Split a character list at every occurrence of `sep`. -/
def splitChar (sep : Char) : List Char → List (List Char)
  | [] => [[]]
  | c :: cs =>
    if c = sep then [] :: splitChar sep cs
    else
      match splitChar sep cs with
      | [] => [[c]]
      | g :: gs => (c :: g) :: gs

/-- `pathlib.Path(s).name` (POSIX): the last component of the path, where
empty and `.` components are dropped by `Path`'s parsing; `""` when no
component remains.  (`..` components are kept by `pathlib`.) -/
def pyPathName (s : String) : String :=
  match ((splitChar '/' s.data).filter
      (fun part => !part.isEmpty && part != ['.'])).reverse with
  | part :: _ => String.mk part
  | [] => ""

/-! ## Filesystem, network oracle and progress channel

The filesystem is a flat association list from path strings to contents;
directories are not represented, so the unconditional
`mkdir(parents=True, exist_ok=True)` calls are no-ops of the model.
Paths are joined with `/` (POSIX `pathlib` on a normalised output
directory).  Progress messages (`emit`) accumulate in order in
`BuildState.emitted`; each invocation of the downloader is recorded in
`BuildState.downloads`. -/

/-- A file's contents: the HTML reports are text, media bodies bytes. -/
inductive FData where
  | text (s : String)
  | bin (bs : List Nat)
deriving DecidableEq

/-- Contents at a path, when present. -/
def fsLookup (fs : List (String × FData)) (p : String) : Option FData :=
  match fs.find? (fun q => q.1 == p) with
  | some q => some q.2
  | none => none

/-- Python `Path.exists()`. -/
def fsExists (fs : List (String × FData)) (p : String) : Bool :=
  (fsLookup fs p).isSome

/-- Write (create or overwrite) a file. -/
def fsWrite (fs : List (String × FData)) (p : String) (d : FData) :
    List (String × FData) :=
  fs.filter (fun q => !(q.1 == p)) ++ [(p, d)]

/-- Python `Path.unlink()` guarded by `exists()` (removing an absent path
is a no-op here, as in the source's `try`/`except`). -/
def fsRemove (fs : List (String × FData)) (p : String) : List (String × FData) :=
  fs.filter (fun q => !(q.1 == p))

/-- The outcome of one download attempt: the full body on success, a
network/timeout failure before anything is written, or a write failure
after `written` bytes reached the disk (`none`: the `open` itself
failed). -/
inductive DlOutcome where
  | ok (body : List Nat)
  | netFail
  | writeFail (written : Option (List Nat))

/-- The `try`/`except Exception` body of `http_get_head_or_download`
(from the `urlopen` to the cleanup), abstracted over the attempt's
outcome.  The catch-all `except` removes whatever file sits at
`target_path` on failure and turns every exception into `False` — hence
a total function. -/
def downloadBody (outcome : DlOutcome)
    (fs : List (String × FData)) (target : String) :
    Bool × List (String × FData) :=
  match outcome with
  | DlOutcome.ok body => (true, fsWrite fs target (FData.bin body))
  | DlOutcome.netFail => (false, fsRemove fs target)
  | DlOutcome.writeFail w =>
    (false, fsRemove
      (match w with
       | none => fs
       | some bs => fsWrite fs target (FData.bin bs)) target)

/-- The builder's mutable context: files on disk, emitted progress
messages, and the trace of downloader invocations `(url, target)`. -/
structure BuildState where
  files : List (String × FData)
  emitted : List String
  downloads : List (String × String)

/-- `emit(msg)`. -/
def emitS (st : BuildState) (msg : String) : BuildState :=
  { st with emitted := st.emitted ++ [msg] }

/-- `output_dir / "media" / safe_suffix` as a string. -/
def mediaTarget (outputDir suffix : String) : String :=
  outputDir ++ "/media/" ++ pyPathName suffix

/-- `output_dir / "survey_responses.html"` as a string. -/
def htmlPath (outputDir : String) : String :=
  outputDir ++ "/survey_responses.html"

/-- Adopt a finished download attempt `r` into the state: the call is
recorded in the trace, the downloader's filesystem is taken over, and a
failure emits the warning with the URL and the path. -/
def dlAdopt (target url : String) (st : BuildState)
    (r : Bool × List (String × FData)) : BuildState :=
  if r.1 then
    { files := r.2, emitted := st.emitted,
      downloads := st.downloads ++ [(url, target)] }
  else
    emitS
      { files := r.2, emitted := st.emitted,
        downloads := st.downloads ++ [(url, target)] }
      ("Warning: Failed to download " ++ url ++ " -> " ++ target)

/-- The tail of one download iteration: run the downloader's guarded
body on the pre-call files and adopt the result.  (The pre-`try`
`ValueError` that `http_get_head_or_download` raises for a scheme-less
media URL — see C4 — is not threaded through the build model, whose
claims are about the guard, skip and rendering logic.) -/
def processDownload (net : String → DlOutcome) (target url : String)
    (st : BuildState) : BuildState :=
  dlAdopt target url st (downloadBody (net url) st.files target)

/-- One iteration of the media-download loop of
`build_survey_responses_html`: sanitise, guard against path traversal,
skip existing files, otherwise download. -/
def processPair (net : String → DlOutcome) (outputDir : String)
    (st : BuildState) (pair : String × String) : BuildState :=
  if pyPathName pair.1 == "" || pyPathName pair.1 == "." || pyPathName pair.1 == ".." then
    emitS st ("Skipping invalid media filename: " ++ pair.1)
  else if fsExists st.files (mediaTarget outputDir pair.1) then
    emitS st ("Media file already exists, skipping download: " ++
      mediaTarget outputDir pair.1)
  else
    processDownload net (mediaTarget outputDir pair.1) pair.2
      (emitS st ("Downloading media: " ++ pair.2 ++ " -> " ++
        mediaTarget outputDir pair.1))

/-- The per-entry media loop (`if not entry.media_map: continue`). -/
def processEntryMedia (net : String → DlOutcome) (outputDir : String)
    (st : BuildState) (e : Entry) : BuildState :=
  if e.media_map.isEmpty then st
  else e.media_map.foldl (processPair net outputDir) st

/-- The whole download phase, entry by entry. -/
def processAllMedia (net : String → DlOutcome) (outputDir : String)
    (st : BuildState) (entries : List Entry) : BuildState :=
  entries.foldl (processEntryMedia net outputDir) st

/-! ## Rendering -/

/-- `esc(x)` on a raw breach value: a non-string has no `.replace` and
raises `AttributeError`. -/
def escVal : JVal → Except PyErr String
  | JVal.str s => Except.ok (esc s)
  | _ => Except.error (PyErr.attributeError "object has no attribute 'replace'")

/-- `esc` over the raw breach list, failing at the first non-string (the
generator inside `"<br/>".join` is drained left to right). -/
def escAll : List JVal → Except PyErr (List String)
  | [] => Except.ok []
  | v :: rest =>
    match escVal v with
    | Except.error e => Except.error e
    | Except.ok s =>
      match escAll rest with
      | Except.error e => Except.error e
      | Except.ok ss => Except.ok (s :: ss)

/-- The row f-string of the builder, given the escaped breaches `bs`. -/
def rowHtml (bs : List String) (e : Entry) : String :=
  "<tr><td>" ++ joinSep "<br/>" bs ++ "</td><td>" ++ esc e.date ++ "</td><td>" ++
    esc e.time ++ "</td><td>" ++
    joinSep "<br/>" (e.media_map.map (fun p => to_link p.1)) ++ "</td></tr>"

/-- One table row, exactly as the builder assembles it. -/
def renderRow (e : Entry) : Except PyErr String :=
  match escAll e.breaches with
  | Except.error er => Except.error er
  | Except.ok bs => Except.ok (rowHtml bs e)

/-- The same row as the spec words it: every user-controlled text run
through the one-pass five-entity escape, the link href the escaped
undecoded filename behind `media/`, the link text the decoded then
escaped filename. -/
def rowSpec (e : Entry) : String :=
  "<tr><td>" ++
    joinSep "<br/>" (e.breaches.map (fun b =>
      escSpec (match b with | JVal.str s => s | _ => ""))) ++
  "</td><td>" ++ escSpec e.date ++ "</td><td>" ++ escSpec e.time ++ "</td><td>" ++
    joinSep "<br/>" (e.media_map.map (fun p =>
      "<a href=\"media/" ++ escSpec p.1 ++ "\">" ++
        escSpec (pyUnquote p.1) ++ "</a>")) ++
  "</td></tr>"

/-- `f"Processing entry \x7bidx\x7d/\x7btotal\x7d"`. -/
def procMsg (idx total : Nat) : String :=
  "Processing entry " ++ toString idx ++ "/" ++ toString total

/-- The row loop of the builder: emit the progress message, render the
row (an `AttributeError` on a non-string breach aborts the build with the
state reached so far), continue. -/
def renderRows (total : Nat) :
    Nat → BuildState → List Entry →
    Except (PyErr × BuildState) (BuildState × List String)
  | _, st, [] => Except.ok (st, [])
  | idx, st, e :: rest =>
    match renderRow e with
    | Except.error er => Except.error (er, emitS st (procMsg idx total))
    | Except.ok row =>
      match renderRows total (idx + 1) (emitS st (procMsg idx total)) rest with
      | Except.error p => Except.error p
      | Except.ok (st2, rows) => Except.ok (st2, row :: rows)

/-- The table wrapper of the builder. -/
def tableHtml (rowsStr : String) : String :=
  "<table border='1'><thead><tr><th>Breaches</th><th>Date</th><th>Time</th>" ++
    "<th>Media</th></tr></thead><tbody>" ++ rowsStr ++ "</tbody></table>"

/-- The full document of the builder. -/
def fullHtml (rowsStr : String) : String :=
  "<!doctype html><html><head><meta charset='utf-8'>" ++
    "<title>Survey Responses</title></head><body>" ++ tableHtml rowsStr ++
    "</body></html>"

/-- The minimal error document written when the fetch fails. -/
def errorHtml (msg : String) : String :=
  "<html><body><p>Error fetching responses: " ++ msg ++ "</p></body></html>"

/-- The minimal document written when there are no entries. -/
def noDataHtml : String := "<html><body><p>No response data found</p></body></html>"

/-- A finished build: the returned path with the final state, or a
propagating Python exception with the state reached when it was raised. -/
inductive BuildResult where
  | ok (st : BuildState) (path : String)
  | raised (e : PyErr) (st : BuildState)

/-- The state carried by either outcome. -/
def buildStateOf : BuildResult → BuildState
  | BuildResult.ok st _ => st
  | BuildResult.raised _ st => st

/-- Write the report document to `outputDir/survey_responses.html`. -/
def writeHtml (outputDir doc : String) (st : BuildState) : BuildState :=
  { files := fsWrite st.files (htmlPath outputDir) (FData.text doc),
    emitted := st.emitted, downloads := st.downloads }

/-- The render-and-write phase of the builder (entries nonempty). -/
def renderPhase (outputDir : String) (entries : List Entry)
    (st : BuildState) : BuildResult :=
  match renderRows entries.length 1 st entries with
  | Except.error p => BuildResult.raised p.1 p.2
  | Except.ok (st2, rows) =>
    BuildResult.ok
      (emitS (writeHtml outputDir (fullHtml (joinSep "" rows)) st2)
        "Done. Output written to survey_responses.html")
      (htmlPath outputDir)

/-- `build_survey_responses_html` from `src/survey_exporter/main.py`,
abstracted over the HTTP+JSON outcome of the fetch, a per-URL download
oracle, and the initial filesystem.  Only `RuntimeError` is caught; a
`ValueError` (or any other exception) from `get_entries` propagates with
nothing written. -/
def build_survey_responses_html (bId dId tId mId : String)
    (httpResult : Except String JVal) (net : String → DlOutcome)
    (outputDir : String) (fs0 : List (String × FData)) : BuildResult :=
  match get_entries bId dId tId mId httpResult with
  | Except.error (PyErr.runtimeError m) =>
    BuildResult.ok
      { files := fsWrite fs0 (htmlPath outputDir) (FData.text (errorHtml m))
        emitted := [m]
        downloads := [] }
      (htmlPath outputDir)
  | Except.error e =>
    BuildResult.raised e { files := fs0, emitted := [], downloads := [] }
  | Except.ok entries =>
    if entries.isEmpty then
      BuildResult.ok
        { files := fsWrite fs0 (htmlPath outputDir) (FData.text noDataHtml)
          emitted := ["No response data found or unexpected response shape"]
          downloads := [] }
        (htmlPath outputDir)
    else
      renderPhase outputDir entries
        (processAllMedia net outputDir
          { files := fs0, emitted := [], downloads := [] } entries)

/-- A sanitised name that cannot escape the media directory: nonempty,
not a dot-name, and without a separator. -/
def goodName (n : String) : Prop :=
  n ≠ "" ∧ n ≠ "." ∧ n ≠ ".." ∧ '/' ∉ n.data

/-! ## Concrete payloads used by witnesses and counterexamples -/

/-- A record whose two media URLs collide on the suffix `document.pdf`
(the duplicate-suffix fixture of the repository's tests). -/
def c2item : JVal :=
  JVal.obj [("data", JVal.obj [("m",
    JVal.arr [JVal.str "https://example.com/private/document.pdf",
              JVal.str "https://other.com/private/document.pdf"])])]

/-- A payload holding only `c2item`. -/
def c2payload : JVal := JVal.obj [("data", JVal.arr [c2item])]

/-- A fully populated record (the first fixture record of the tests). -/
def c5item1 : JVal :=
  JVal.obj [("data", JVal.obj [
    ("b", JVal.arr [JVal.str "Breach A", JVal.str "Breach B"]),
    ("d", JVal.str "2025-11-15"),
    ("t", JVal.str "14:30"),
    ("m", JVal.arr [JVal.str "https://example.com/private/file1.pdf",
                    JVal.str "https://example.com/private/file2.jpg"])])]

/-- A record with a string-valued media field and no date/time. -/
def c5item2 : JVal :=
  JVal.obj [("data", JVal.obj [
    ("b", JVal.arr [JVal.str "Breach C"]),
    ("m", JVal.str "https://example.com/uploads/document.png")])]

/-- A payload with two records. -/
def c5payload : JVal := JVal.obj [("data", JVal.arr [c5item1, c5item2])]

/-- A record whose media list mixes a number and a string URL. -/
def c10item : JVal :=
  JVal.obj [("data", JVal.obj [("m",
    JVal.arr [JVal.num 1, JVal.str "https://x/private/p.pdf"])])]

/-- An entry with a scripty breach and a percent-encoded filename. -/
def c6entry : Entry :=
  { breaches := [JVal.str "<script>"], date := "2025-11-15", time := "14:30",
    media_map := [("a%20b.pdf", "https://x/private/a%20b.pdf")] }

/-- An entry whose media filename sanitises to `..`. -/
def c7entry : Entry :=
  { breaches := [], date := "", time := "",
    media_map := [("a/..", "http://x/a/..")] }

/-- A network oracle that always succeeds with one byte. -/
def c7net : String → DlOutcome := fun _ => DlOutcome.ok [0]

/-- An entry with a well-formed media filename. -/
def c7entryGood : Entry :=
  { breaches := [], date := "", time := "",
    media_map := [("ok.pdf", "http://x/ok.pdf")] }

/-- A payload with one record whose single media file is `doc.pdf`. -/
def c8payload : JVal :=
  JVal.obj [("data", JVal.arr [JVal.obj [("data",
    JVal.obj [("m", JVal.str "https://x/private/doc.pdf")])]])]

/-- An output directory that already holds `media/doc.pdf`. -/
def c8fs : List (String × FData) := [("out/media/doc.pdf", FData.bin [1])]

/-- A network oracle that always fails (the re-run must not need it). -/
def c8net : String → DlOutcome := fun _ => DlOutcome.netFail

/-- The entry the `c8payload` fetch produces. -/
def c8entry : Entry :=
  { breaches := [], date := "", time := "",
    media_map := [("doc.pdf", "https://x/private/doc.pdf")] }

/-! ## C1: the suffix rule -/

theorem splitNetloc_error (l : List Char) (e : String)
    (h : splitNetloc l = Except.error e) : e = "Invalid IPv6 URL" := by
  unfold splitNetloc at h
  split at h
  · split at h
    · injection h with h'
      exact h'.symm
    · simp at h
  · simp at h

theorem urlparsePath_error (url : String) (e : String)
    (h : urlparsePath url = Except.error e) : e = "Invalid IPv6 URL" := by
  unfold urlparsePath at h
  rcases hn : splitNetloc (dropScheme (stripUrl url)) with e' | l4
  · simp only [hn, Except.error.injEq] at h
    rw [← h]
    exact splitNetloc_error _ _ hn
  · simp [hn] at h

/-- C1, counterexample to the claim as stated: `media_suffix` is not a
total, never-failing function.  On the input `//[` (no `private/`
occurrence, so the parse branch runs) `urlparse` raises
`ValueError("Invalid IPv6 URL")` and `media_suffix` propagates it instead
of returning a path segment. -/
theorem c1_media_suffix_total_cex :
    pyContainsSub "private/" "//[" = false ∧
    media_suffix "//[" = Except.error "Invalid IPv6 URL" :=
  ⟨rfl, rfl⟩

/-- C1 (amended): for every string url, if the literal substring
`private/` occurs in url, `media_suffix` succeeds with everything after
the first occurrence of that substring.  Otherwise `media_suffix` calls
`urlparse`, which is not total: on a netloc with unbalanced square
brackets (e.g. `//[`) it raises `ValueError("Invalid IPv6 URL")` and
`media_suffix` propagates it.  On the domain where the embedding is
exact — netloc all-ASCII and bracket-free (`netlocSimple`), where
CPython's `_checknetloc` NFKC check and the 3.11+ bracketed-host
validation provably cannot fire — the non-private branch succeeds with
the segment after the last `/` of the parsed path whenever the parse
succeeds, and `Invalid IPv6 URL` is the only possible failure.  A
non-ASCII netloc can additionally raise the NFKC ValueError (e.g.
`media_suffix("//℀")`, since NFKC("℀") = "a/c" contains `/`), which is
outside this model. -/
theorem c1_media_suffix_rule (url : String) :
    (pyContainsSub "private/" url = true →
      media_suffix url = Except.ok (pySplitFirstAfter "private/" url)) ∧
    (pyContainsSub "private/" url = false → netlocSimple url = true →
      ∀ path, urlparsePath url = Except.ok path →
        media_suffix url = Except.ok (pyRsplitLast '/' path)) ∧
    (netlocSimple url = true →
      ∀ e, media_suffix url = Except.error e →
        pyContainsSub "private/" url = false ∧ e = "Invalid IPv6 URL") := by
  refine ⟨?_, ?_, ?_⟩
  · intro h
    unfold media_suffix
    rw [h]
    simp
  · intro h _hns path hp
    unfold media_suffix
    rw [h]
    simp [hp]
  · intro _hns e he
    unfold media_suffix at he
    by_cases h : pyContainsSub "private/" url = true
    · rw [h] at he
      simp at he
    · rw [Bool.not_eq_true] at h
      rw [h] at he
      simp only [Bool.false_eq_true, if_false] at he
      refine ⟨h, ?_⟩
      rcases hp : urlparsePath url with e' | path
      · rw [hp] at he
        injection he with h'
        exact (h' ▸ urlparsePath_error url e' hp)
      · rw [hp] at he
        simp at he

theorem c1_media_suffix_rule_witness :
    media_suffix "https://x/private/a/b.jpg" = Except.ok "a/b.jpg" ∧
    media_suffix "https://x/up/doc.pdf" = Except.ok "doc.pdf" ∧
    netlocSimple "//]" = true ∧
    pyContainsSub "private/" "//]" = false := by
  have h1 := (c1_media_suffix_rule "https://x/private/a/b.jpg").1 (by decide)
  have h2 := (c1_media_suffix_rule "https://x/up/doc.pdf").2.1 (by decide)
    (by decide) "/up/doc.pdf" (by rfl)
  have h3 := (c1_media_suffix_rule "//]").2.2 (by decide)
    "Invalid IPv6 URL" (by rfl)
  exact ⟨h1.trans (by rfl), h2.trans (by rfl), by decide, h3.1⟩

/-! ## Helper lemmas about the media-map loop -/

theorem JVal.isStr_iff (v : JVal) : JVal.isStr v = true ↔ ∃ s, v = JVal.str s := by
  cases v <;> simp [JVal.isStr]

theorem mediaStrings_cons_nonstr (v : JVal) (rest : List JVal)
    (h : JVal.isStr v = false) : mediaStrings (v :: rest) = mediaStrings rest := by
  cases v with
  | str s => simp [JVal.isStr] at h
  | null => rfl
  | bool b => rfl
  | num n => rfl
  | arr xs => rfl
  | obj kvs => rfl

theorem buildMediaMapAux_cons_nonstr (acc : List (String × String)) (v : JVal)
    (rest : List JVal) (h : JVal.isStr v = false) :
    buildMediaMapAux acc (v :: rest) = buildMediaMapAux acc rest := by
  cases v with
  | str s => simp [JVal.isStr] at h
  | null => rfl
  | bool b => rfl
  | num n => rfl
  | arr xs => rfl
  | obj kvs => rfl

theorem suffixesOf_cons_nonstr (v : JVal) (rest : List JVal)
    (h : JVal.isStr v = false) : suffixesOf (v :: rest) = suffixesOf rest := by
  unfold suffixesOf
  rw [mediaStrings_cons_nonstr v rest h]

theorem mediaStrings_cons_str (u : String) (rest : List JVal) :
    mediaStrings (JVal.str u :: rest) = u :: mediaStrings rest := rfl

theorem suffixesOf_cons_str (u k : String) (rest : List JVal)
    (h : media_suffix u = Except.ok k) :
    suffixesOf (JVal.str u :: rest) = k :: suffixesOf rest := by
  unfold suffixesOf
  rw [mediaStrings_cons_str]
  simp [List.filterMap_cons, h, Except.toOption]

theorem keys_not_mem_of_lookupFirst_none (m : List (String × String)) (k : String)
    (h : lookupFirst m k = none) : k ∉ m.map Prod.fst := by
  intro hk
  rcases List.mem_map.mp hk with ⟨p, hp, hpk⟩
  unfold lookupFirst at h
  rcases hf : m.find? (fun q => q.1 == k) with _ | q
  · rw [List.find?_eq_none] at hf
    exact hf p hp (by simp [hpk])
  · rw [hf] at h
    simp at h

theorem lookupFirst_some_mem (m : List (String × String)) (k v : String)
    (h : lookupFirst m k = some v) : (k, v) ∈ m := by
  unfold lookupFirst at h
  rcases hf : m.find? (fun q => q.1 == k) with _ | q
  · rw [hf] at h
    simp at h
  · rw [hf] at h
    have hm := List.mem_of_find?_eq_some hf
    have hq := List.find?_some hf
    rw [beq_iff_eq] at hq
    simp only [Option.some.injEq] at h
    have : q = (k, v) := by
      cases q
      simp_all
    rw [← this]
    exact hm

theorem buildMediaMapAux_dup_error (l : List JVal) :
    ∀ acc : List (String × String),
    (∀ u ∈ mediaStrings l, exceptOk (media_suffix u) = true) →
    ((∃ s ∈ suffixesOf l, s ∈ acc.map Prod.fst) ∨ ¬ (suffixesOf l).Nodup) →
    ∃ e, buildMediaMapAux acc l = Except.error e := by
  induction l with
  | nil =>
    intro acc _ h
    rcases h with ⟨s, hs, _⟩ | hnd
    · simp [suffixesOf, mediaStrings] at hs
    · exact absurd (by simp [suffixesOf, mediaStrings]) hnd
  | cons v rest ih =>
    intro acc hok h
    by_cases hstr : JVal.isStr v = true
    · rcases (JVal.isStr_iff v).mp hstr with ⟨u, rfl⟩
      have hu : exceptOk (media_suffix u) = true := hok u (by simp [mediaStrings])
      rcases hsu : media_suffix u with msg | k
      · rw [hsu] at hu
        simp [exceptOk] at hu
      · have hso := suffixesOf_cons_str u k rest hsu
        rcases hl : lookupFirst acc k with _ | f
        · have hok' : ∀ w ∈ mediaStrings rest, exceptOk (media_suffix w) = true :=
            fun w hw => hok w (by simp [mediaStrings, hw])
          have h' : (∃ s ∈ suffixesOf rest, s ∈ ((acc ++ [(k, u)]).map Prod.fst)) ∨
              ¬ (suffixesOf rest).Nodup := by
            rcases h with ⟨s, hs, hsacc⟩ | hnd
            · rw [hso] at hs
              rcases List.mem_cons.mp hs with hks | hs'
              · exact absurd (hks ▸ hsacc) (keys_not_mem_of_lookupFirst_none acc k hl)
              · exact Or.inl ⟨s, hs', by simp [hsacc]⟩
            · rw [hso, List.nodup_cons] at hnd
              by_cases hk : k ∈ suffixesOf rest
              · exact Or.inl ⟨k, hk, by simp⟩
              · exact Or.inr (fun hn => hnd ⟨hk, hn⟩)
          rcases ih (acc ++ [(k, u)]) hok' h' with ⟨e, he⟩
          exact ⟨e, by simp [buildMediaMapAux, hsu, hl, he]⟩
        · exact ⟨PyErr.valueError (dupMsg k f u), by simp [buildMediaMapAux, hsu, hl]⟩
    · have hsf : JVal.isStr v = false := by simpa using hstr
      rw [buildMediaMapAux_cons_nonstr acc v rest hsf]
      refine ih acc (fun w hw => hok w ?_) ?_
      · rw [mediaStrings_cons_nonstr v rest hsf]
        exact hw
      · rw [suffixesOf_cons_nonstr v rest hsf] at h
        exact h

theorem buildMediaMapAux_error_shape (l : List JVal) :
    ∀ (acc : List (String × String)) (e : PyErr),
    (∀ p ∈ acc, media_suffix p.2 = Except.ok p.1) →
    (∀ u ∈ mediaStrings l, exceptOk (media_suffix u) = true) →
    buildMediaMapAux acc l = Except.error e →
    ∃ k u1 u2, e = PyErr.valueError (dupMsg k u1 u2) ∧
      media_suffix u1 = Except.ok k ∧ media_suffix u2 = Except.ok k ∧
      ((k, u1) ∈ acc ∨ u1 ∈ mediaStrings l) ∧ u2 ∈ mediaStrings l := by
  induction l with
  | nil =>
    intro acc e _ _ h
    simp [buildMediaMapAux] at h
  | cons v rest ih =>
    intro acc e hacc hok h
    by_cases hstr : JVal.isStr v = true
    · rcases (JVal.isStr_iff v).mp hstr with ⟨u, rfl⟩
      have hu : exceptOk (media_suffix u) = true := hok u (by simp [mediaStrings])
      rcases hsu : media_suffix u with msg | k
      · rw [hsu] at hu
        simp [exceptOk] at hu
      · rcases hl : lookupFirst acc k with _ | f
        · have h' : buildMediaMapAux (acc ++ [(k, u)]) rest = Except.error e := by
            simpa [buildMediaMapAux, hsu, hl] using h
          have hacc' : ∀ p ∈ acc ++ [(k, u)], media_suffix p.2 = Except.ok p.1 := by
            intro p hp
            rcases List.mem_append.mp hp with h1 | h2
            · exact hacc p h1
            · have hpk : p = (k, u) := by simpa using h2
              subst hpk
              exact hsu
          have hok' : ∀ w ∈ mediaStrings rest, exceptOk (media_suffix w) = true :=
            fun w hw => hok w (by simp [mediaStrings, hw])
          rcases ih _ e hacc' hok' h' with ⟨k', u1, u2, he, h1, h2, h3, h4⟩
          refine ⟨k', u1, u2, he, h1, h2, ?_, by simp [mediaStrings, h4]⟩
          rcases h3 with h3a | h3b
          · rcases List.mem_append.mp h3a with ha | hb
            · exact Or.inl ha
            · have hku : (k', u1) = (k, u) := by simpa using hb
              have hu1 : u1 = u := congrArg Prod.snd hku
              exact Or.inr (by simp [mediaStrings, hu1])
          · exact Or.inr (by simp [mediaStrings, h3b])
        · have he : Except.error (ε := PyErr) (α := List (String × String))
              (PyErr.valueError (dupMsg k f u)) = Except.error e := by
            simpa [buildMediaMapAux, hsu, hl] using h
          have hkf : (k, f) ∈ acc := lookupFirst_some_mem acc k f hl
          refine ⟨k, f, u, ?_, hacc (k, f) hkf, hsu, Or.inl hkf, by simp [mediaStrings]⟩
          injection he with he'
          exact he'.symm
    · have hsf : JVal.isStr v = false := by simpa using hstr
      rw [buildMediaMapAux_cons_nonstr acc v rest hsf] at h
      have hok' : ∀ w ∈ mediaStrings rest, exceptOk (media_suffix w) = true := by
        intro w hw
        refine hok w ?_
        rw [mediaStrings_cons_nonstr v rest hsf]
        exact hw
      rcases ih acc e hacc hok' h with ⟨k, u1, u2, he, h1, h2, h3, h4⟩
      refine ⟨k, u1, u2, he, h1, h2, ?_, ?_⟩
      · rcases h3 with h3a | h3b
        · exact Or.inl h3a
        · refine Or.inr ?_
          rw [mediaStrings_cons_nonstr v rest hsf]
          exact h3b
      · rw [mediaStrings_cons_nonstr v rest hsf]
        exact h4

theorem buildMediaMapAux_ok_mem (l : List JVal) :
    ∀ (acc m : List (String × String)),
    buildMediaMapAux acc l = Except.ok m →
    ∀ p ∈ m, p ∈ acc ∨ (p.2 ∈ mediaStrings l ∧ media_suffix p.2 = Except.ok p.1) := by
  induction l with
  | nil =>
    intro acc m h p hp
    have : acc = m := by simpa [buildMediaMapAux] using h
    subst this
    exact Or.inl hp
  | cons v rest ih =>
    intro acc m h p hp
    by_cases hstr : JVal.isStr v = true
    · rcases (JVal.isStr_iff v).mp hstr with ⟨u, rfl⟩
      rcases hsu : media_suffix u with msg | k
      · simp [buildMediaMapAux, hsu] at h
      · rcases hl : lookupFirst acc k with _ | f
        · have h' : buildMediaMapAux (acc ++ [(k, u)]) rest = Except.ok m := by
            simpa [buildMediaMapAux, hsu, hl] using h
          rcases ih _ _ h' p hp with hmem | ⟨hm1, hm2⟩
          · rcases List.mem_append.mp hmem with h1 | h2
            · exact Or.inl h1
            · have hpk : p = (k, u) := by simpa using h2
              subst hpk
              exact Or.inr ⟨by simp [mediaStrings], hsu⟩
          · exact Or.inr ⟨by simp [mediaStrings, hm1], hm2⟩
        · simp [buildMediaMapAux, hsu, hl] at h
    · have hsf : JVal.isStr v = false := by simpa using hstr
      rw [buildMediaMapAux_cons_nonstr acc v rest hsf] at h
      rcases ih acc m h p hp with h1 | ⟨h2, h3⟩
      · exact Or.inl h1
      · refine Or.inr ⟨?_, h3⟩
        rw [mediaStrings_cons_nonstr v rest hsf]
        exact h2

theorem processItems_append_error (bId dId tId mId : String) (pre rest : List JVal)
    (hpre : ∀ it ∈ pre, exceptOk (processItem bId dId tId mId it) = true)
    (e : PyErr) (h : processItems bId dId tId mId rest = Except.error e) :
    processItems bId dId tId mId (pre ++ rest) = Except.error e := by
  induction pre with
  | nil => simpa using h
  | cons it pre ih =>
    have hit := hpre it (by simp)
    rcases hok : processItem bId dId tId mId it with er | entry
    · rw [hok] at hit
      simp [exceptOk] at hit
    · have hrec := ih (fun x hx => hpre x (by simp [hx]))
      simp [processItems, hok, hrec]

theorem processItem_media_error (bId dId tId mId : String) (item : JVal)
    (hb : exceptOk (get_value item bId) = true)
    (hd : exceptOk (get_value item dId) = true)
    (ht : exceptOk (get_value item tId) = true)
    (mv : Option JVal) (hm : get_value item mId = Except.ok mv)
    (e : PyErr) (hbm : buildMediaMapAux [] (coerceMedia mv) = Except.error e) :
    processItem bId dId tId mId item = Except.error e := by
  rcases hbv : get_value item bId with er | bv
  · rw [hbv] at hb
    simp [exceptOk] at hb
  · rcases hdv : get_value item dId with er | dv
    · rw [hdv] at hd
      simp [exceptOk] at hd
    · rcases htv : get_value item tId with er | tv
      · rw [htv] at ht
        simp [exceptOk] at ht
      · simp [processItem, hbv, hdv, htv, hm, hbm]

theorem processItems_ok_of_all_ok (bId dId tId mId : String) (items : List JVal)
    (h : ∀ item ∈ items, exceptOk (processItem bId dId tId mId item) = true) :
    ∃ entries, processItems bId dId tId mId items = Except.ok entries ∧
      List.Forall₂ (fun item e => processItem bId dId tId mId item = Except.ok e)
        items entries := by
  induction items with
  | nil => exact ⟨[], rfl, List.Forall₂.nil⟩
  | cons it rest ih =>
    have hit := h it (by simp)
    rcases hpi : processItem bId dId tId mId it with er | e
    · rw [hpi] at hit
      simp [exceptOk] at hit
    · rcases ih (fun x hx => h x (by simp [hx])) with ⟨es, hes, hf⟩
      exact ⟨e :: es, by simp [processItems, hpi, hes], List.Forall₂.cons hpi hf⟩

/-! ## C9: fetch failures are wrapped -/

/-- C9: when the HTTP request or the JSON decode fails with message
`cause`, `get_entries` raises (returns no entries) a RuntimeError whose
message starts with "Failed to fetch entries" and ends with the wrapped
cause, keeping the failure distinct from the empty-sequence result. -/
theorem c9_fetch_failure_wrapped (bId dId tId mId cause : String) :
    get_entries bId dId tId mId (Except.error cause) =
      Except.error (PyErr.runtimeError ("Failed to fetch entries: " ++ cause)) ∧
    ("Failed to fetch entries").data <+: ("Failed to fetch entries: " ++ cause).data ∧
    cause.data <:+ ("Failed to fetch entries: " ++ cause).data := by
  refine ⟨rfl, ?_, ?_⟩
  · have hsplit : ("Failed to fetch entries: " ++ cause).data =
        ("Failed to fetch entries").data ++ (": ".data ++ cause.data) := by
      simp [String.data_append]
    rw [hsplit]
    exact List.prefix_append _ _
  · have hsplit : ("Failed to fetch entries: " ++ cause).data =
        ("Failed to fetch entries: ").data ++ cause.data := by
      simp [String.data_append]
    rw [hsplit]
    exact List.suffix_append _ _

/-! ## C10: non-string media elements are skipped -/

/-- C10: when the media field is a list, `get_entries` silently skips the
non-string elements — the media-map loop behaves exactly as on the list
filtered down to its strings (hence no error and no effect on the other
elements) — and every key of a produced entry's media_map is the
successfully computed suffix of some string URL of that record's media
list. -/
theorem c10_nonstring_media_skipped :
    (∀ (acc : List (String × String)) (l : List JVal),
      buildMediaMapAux acc l = buildMediaMapAux acc (l.filter JVal.isStr)) ∧
    (∀ bId dId tId mId item e, processItem bId dId tId mId item = Except.ok e →
      ∀ k u, (k, u) ∈ e.media_map →
        ∃ mv, get_value item mId = Except.ok mv ∧
          u ∈ mediaStrings (coerceMedia mv) ∧ media_suffix u = Except.ok k) := by
  constructor
  · intro acc l
    induction l generalizing acc with
    | nil => rfl
    | cons v rest ih =>
      by_cases hstr : JVal.isStr v = true
      · rcases (JVal.isStr_iff v).mp hstr with ⟨u, rfl⟩
        rw [List.filter_cons_of_pos hstr]
        rcases hsu : media_suffix u with msg | k
        · simp [buildMediaMapAux, hsu]
        · rcases hl : lookupFirst acc k with _ | f
          · simp [buildMediaMapAux, hsu, hl, ih]
          · simp [buildMediaMapAux, hsu, hl]
      · have hsf : JVal.isStr v = false := by simpa using hstr
        rw [List.filter_cons_of_neg (by simp [hsf]),
          buildMediaMapAux_cons_nonstr acc v rest hsf]
        exact ih acc
  · intro bId dId tId mId item e h k u hmem
    rcases hbv : get_value item bId with er | bv
    · simp [processItem, hbv] at h
    · rcases hdv : get_value item dId with er | dv
      · simp [processItem, hbv, hdv] at h
      · rcases htv : get_value item tId with er | tv
        · simp [processItem, hbv, hdv, htv] at h
        · rcases hmv : get_value item mId with er | mv
          · simp [processItem, hbv, hdv, htv, hmv] at h
          · rcases hbm : buildMediaMapAux [] (coerceMedia mv) with er | mm
            · simp [processItem, hbv, hdv, htv, hmv, hbm] at h
            · have he : e.media_map = mm := by
                have := h
                simp [processItem, hbv, hdv, htv, hmv, hbm] at this
                rw [← this]
              rcases buildMediaMapAux_ok_mem (coerceMedia mv) [] mm hbm (k, u)
                  (he ▸ hmem) with hfalse | ⟨h1, h2⟩
              · simp at hfalse
              · exact ⟨mv, rfl, h1, h2⟩

theorem c10_nonstring_media_skipped_witness :
    processItem "b" "d" "t" "m" c10item =
      Except.ok { breaches := [], date := "", time := "",
                  media_map := [("p.pdf", "https://x/private/p.pdf")] } ∧
    ∃ mv, get_value c10item "m" = Except.ok mv ∧
      "https://x/private/p.pdf" ∈ mediaStrings (coerceMedia mv) ∧
      media_suffix "https://x/private/p.pdf" = Except.ok "p.pdf" := by
  constructor
  · rfl
  · exact c10_nonstring_media_skipped.2 "b" "d" "t" "m" c10item
      { breaches := [], date := "", time := "",
        media_map := [("p.pdf", "https://x/private/p.pdf")] }
      rfl "p.pdf" "https://x/private/p.pdf" (by simp)

/-! ## C2: duplicate media suffixes abort the fetch -/

/-- C2: a raw record whose media list contains two (string) URLs with the
same computed suffix makes `get_entries` fail with the ValueError whose
message names the colliding key, the first mapped URL and the current
URL, aborting the entire fetch with no entries returned.  The hypotheses
say the fetch actually reaches the offending record (records before it
process cleanly), its field lookups succeed, and its suffixes compute —
the claim presupposes all of these. -/
theorem c2_duplicate_media_key (bId dId tId mId : String) (payload : JVal)
    (pre post : List JVal) (item : JVal)
    (hdata : dataItemsOf payload = some (pre ++ item :: post))
    (hpre : ∀ it ∈ pre, exceptOk (processItem bId dId tId mId it) = true)
    (hb : exceptOk (get_value item bId) = true)
    (hd : exceptOk (get_value item dId) = true)
    (ht : exceptOk (get_value item tId) = true)
    (mv : Option JVal) (hm : get_value item mId = Except.ok mv)
    (hsuf : ∀ u ∈ mediaStrings (coerceMedia mv), exceptOk (media_suffix u) = true)
    (hdup : ¬ (suffixesOf (coerceMedia mv)).Nodup) :
    ∃ k u1 u2,
      get_entries bId dId tId mId (Except.ok payload) =
        Except.error (PyErr.valueError (dupMsg k u1 u2)) ∧
      u1 ∈ mediaStrings (coerceMedia mv) ∧ u2 ∈ mediaStrings (coerceMedia mv) ∧
      media_suffix u1 = Except.ok k ∧ media_suffix u2 = Except.ok k := by
  rcases buildMediaMapAux_dup_error (coerceMedia mv) [] hsuf (Or.inr hdup) with ⟨e, he⟩
  rcases buildMediaMapAux_error_shape (coerceMedia mv) [] e (by simp) hsuf he with
    ⟨k, u1, u2, hek, h1, h2, h3, h4⟩
  have h3' : u1 ∈ mediaStrings (coerceMedia mv) := by
    rcases h3 with hfalse | hmem
    · simp at hfalse
    · exact hmem
  have hpi : processItem bId dId tId mId item = Except.error e :=
    processItem_media_error bId dId tId mId item hb hd ht mv hm e he
  have hpis : processItems bId dId tId mId (pre ++ item :: post) = Except.error e := by
    refine processItems_append_error bId dId tId mId pre (item :: post) hpre e ?_
    simp [processItems, hpi]
  refine ⟨k, u1, u2, ?_, h3', h4, h1, h2⟩
  rw [← hek]
  simp [get_entries, hdata, hpis]

theorem c2_duplicate_media_key_witness :
    dataItemsOf c2payload = some ([] ++ c2item :: []) ∧
    (∀ u ∈ mediaStrings (coerceMedia (some (JVal.arr
      [JVal.str "https://example.com/private/document.pdf",
       JVal.str "https://other.com/private/document.pdf"]))),
      exceptOk (media_suffix u) = true) ∧
    ¬ (suffixesOf (coerceMedia (some (JVal.arr
      [JVal.str "https://example.com/private/document.pdf",
       JVal.str "https://other.com/private/document.pdf"])))).Nodup ∧
    ∃ k u1 u2,
      get_entries "b" "d" "t" "m" (Except.ok c2payload) =
        Except.error (PyErr.valueError (dupMsg k u1 u2)) ∧
      u1 ∈ mediaStrings (coerceMedia (some (JVal.arr
        [JVal.str "https://example.com/private/document.pdf",
         JVal.str "https://other.com/private/document.pdf"]))) ∧
      u2 ∈ mediaStrings (coerceMedia (some (JVal.arr
        [JVal.str "https://example.com/private/document.pdf",
         JVal.str "https://other.com/private/document.pdf"]))) ∧
      media_suffix u1 = Except.ok k ∧ media_suffix u2 = Except.ok k := by
  refine ⟨rfl, by decide, by decide, ?_⟩
  exact c2_duplicate_media_key "b" "d" "t" "m" c2payload [] [] c2item rfl
    (by intro it hit; simp at hit) rfl rfl rfl
    (some (JVal.arr [JVal.str "https://example.com/private/document.pdf",
      JVal.str "https://other.com/private/document.pdf"])) rfl
    (by decide) (by decide)

/-! ## C5: shape leniency of the record parser -/

/-- C5, counterexample to the claim as stated: `get_entries` is not
shape-lenient for every record.  A record `\x7b"data": null\x7d` makes the
Python lookup `target in obj["data"]` raise `TypeError`, so `get_entries`
raises instead of yielding a coerced Entry for it. -/
theorem c5_shape_leniency_cex :
    get_entries "b" "d" "t" "m"
        (Except.ok (JVal.obj [("data", JVal.arr [JVal.obj [("data", JVal.null)]])])) =
      Except.error (PyErr.typeError "argument of type 'NoneType' is not iterable") := rfl

/-- C5 (amended): a non-list top-level `data` yields the empty list, not
an error; and when every record's nested field lookups succeed (which the
unconditional claim wrongly took for granted — see the counterexample)
and its media map builds, `get_entries` yields exactly one Entry per raw
record in input order, with breaches coerced to `[]` unless a list, date
and time coerced to `""` when absent or JSON null (`.get(...)` returns
Python `None` in both cases) and string-converted otherwise, a
string-valued media field treated as a one-element map, and an absent
media field as an empty map. -/
theorem c5_shape_leniency (bId dId tId mId : String) :
    (∀ payload, dataItemsOf payload = none →
      get_entries bId dId tId mId (Except.ok payload) = Except.ok []) ∧
    (∀ payload items, dataItemsOf payload = some items →
      (∀ item ∈ items, exceptOk (processItem bId dId tId mId item) = true) →
      ∃ entries, get_entries bId dId tId mId (Except.ok payload) = Except.ok entries ∧
        List.Forall₂ (fun item e => processItem bId dId tId mId item = Except.ok e)
          items entries) ∧
    (∀ item e, processItem bId dId tId mId item = Except.ok e →
      ∃ bv dv tv mv,
        get_value item bId = Except.ok bv ∧ get_value item dId = Except.ok dv ∧
        get_value item tId = Except.ok tv ∧ get_value item mId = Except.ok mv ∧
        e.breaches = coerceBreaches bv ∧ e.date = coerceScalar dv ∧
        e.time = coerceScalar tv ∧
        buildMediaMapAux [] (coerceMedia mv) = Except.ok e.media_map) ∧
    (∀ s k, media_suffix s = Except.ok k →
      buildMediaMapAux [] (coerceMedia (some (JVal.str s))) = Except.ok [(k, s)]) ∧
    buildMediaMapAux [] (coerceMedia none) = Except.ok [] ∧
    coerceScalar none = "" ∧ coerceScalar (some JVal.null) = "" := by
  refine ⟨?_, ?_, ?_, ?_, rfl, rfl, rfl⟩
  · intro payload hnone
    simp [get_entries, hnone]
  · intro payload items hdata hall
    rcases processItems_ok_of_all_ok bId dId tId mId items hall with ⟨entries, he, hf⟩
    exact ⟨entries, by simp [get_entries, hdata, he], hf⟩
  · intro item e h
    rcases hbv : get_value item bId with er | bv
    · simp [processItem, hbv] at h
    · rcases hdv : get_value item dId with er | dv
      · simp [processItem, hbv, hdv] at h
      · rcases htv : get_value item tId with er | tv
        · simp [processItem, hbv, hdv, htv] at h
        · rcases hmv : get_value item mId with er | mv
          · simp [processItem, hbv, hdv, htv, hmv] at h
          · rcases hbm : buildMediaMapAux [] (coerceMedia mv) with er | mm
            · simp [processItem, hbv, hdv, htv, hmv, hbm] at h
            · have he :
                  ({ breaches := coerceBreaches bv, date := coerceScalar dv,
                     time := coerceScalar tv, media_map := mm } : Entry) = e := by
                simpa [processItem, hbv, hdv, htv, hmv, hbm] using h
              refine ⟨bv, dv, tv, mv, rfl, rfl, rfl, rfl, ?_, ?_, ?_, ?_⟩
              · rw [← he]
              · rw [← he]
              · rw [← he]
              · rw [← he]
                exact hbm
  · intro s k hk
    simp [coerceMedia, buildMediaMapAux, hk, lookupFirst]

theorem c5_shape_leniency_witness :
    dataItemsOf (JVal.obj [("data", JVal.str "invalid")]) = none ∧
    get_entries "b" "d" "t" "m"
      (Except.ok (JVal.obj [("data", JVal.str "invalid")])) = Except.ok [] ∧
    dataItemsOf c5payload = some [c5item1, c5item2] ∧
    (∀ item ∈ [c5item1, c5item2], exceptOk (processItem "b" "d" "t" "m" item) = true) ∧
    (∃ entries, get_entries "b" "d" "t" "m" (Except.ok c5payload) = Except.ok entries ∧
      List.Forall₂ (fun item e => processItem "b" "d" "t" "m" item = Except.ok e)
        [c5item1, c5item2] entries) ∧
    media_suffix "https://example.com/uploads/document.png" = Except.ok "document.png" ∧
    buildMediaMapAux []
        (coerceMedia (some (JVal.str "https://example.com/uploads/document.png"))) =
      Except.ok [("document.png", "https://example.com/uploads/document.png")] := by
  refine ⟨rfl, ?_, rfl, by decide, ?_, rfl, ?_⟩
  · exact (c5_shape_leniency "b" "d" "t" "m").1 (JVal.obj [("data", JVal.str "invalid")]) rfl
  · exact (c5_shape_leniency "b" "d" "t" "m").2.1 c5payload [c5item1, c5item2] rfl (by decide)
  · exact (c5_shape_leniency "b" "d" "t" "m").2.2.2.1
      "https://example.com/uploads/document.png" "document.png" rfl

/-! ## Helper lemmas about the filesystem model -/

theorem find?_filter_ne (fs : List (String × FData)) (p : String) :
    (fs.filter (fun q => !(q.1 == p))).find? (fun q => q.1 == p) = none := by
  rw [List.find?_eq_none]
  intro x hx
  have hq := (List.mem_filter.mp hx).2
  simp at hq
  simp [hq]

theorem find?_append_none {α : Type} (p : α → Bool) (l1 l2 : List α)
    (h : l1.find? p = none) : (l1 ++ l2).find? p = l2.find? p := by
  induction l1 with
  | nil => rfl
  | cons x l ih =>
    have hx : ¬ p x = true := by
      intro hpx
      have := List.find?_eq_none.mp h x (by simp)
      exact this hpx
    have hl : l.find? p = none := by
      rw [List.find?_eq_none] at h ⊢
      intro a ha
      exact h a (by simp [ha])
    rw [List.cons_append, List.find?_cons_of_neg _ hx, ih hl]

theorem find?_filter_of_pred {α : Type} (l : List α) (p f : α → Bool)
    (h : ∀ x, p x = true → f x = true) : (l.filter f).find? p = l.find? p := by
  induction l with
  | nil => rfl
  | cons x l ih =>
    by_cases hp : p x = true
    · rw [List.filter_cons_of_pos (h x hp), List.find?_cons_of_pos _ hp,
        List.find?_cons_of_pos _ hp]
    · by_cases hf : f x = true
      · rw [List.filter_cons_of_pos hf, List.find?_cons_of_neg _ hp,
          List.find?_cons_of_neg _ hp, ih]
      · rw [List.filter_cons_of_neg (by simpa using hf), List.find?_cons_of_neg _ hp, ih]

theorem fsLookup_fsWrite_self (fs : List (String × FData)) (p : String) (d : FData) :
    fsLookup (fsWrite fs p d) p = some d := by
  unfold fsLookup fsWrite
  rw [find?_append_none _ _ _ (find?_filter_ne fs p)]
  simp

theorem fsLookup_fsWrite_ne (fs : List (String × FData)) (p : String) (d : FData)
    (p' : String) (h : ¬ p' = p) : fsLookup (fsWrite fs p d) p' = fsLookup fs p' := by
  unfold fsLookup fsWrite
  have hpb : (p == p') = false := by
    simp
    exact fun hc => h hc.symm
  have h2 : ∀ l : List (String × FData),
      (l ++ [(p, d)]).find? (fun q => q.1 == p') = l.find? (fun q => q.1 == p') := by
    intro l
    induction l with
    | nil => simp [List.find?, hpb]
    | cons x l ih =>
      rcases hp : (x.1 == p') with _ | _
      · simp [List.find?, hp, ih]
      · simp [List.find?, hp]
  rw [h2, find?_filter_of_pred]
  intro x hx
  simp at hx
  simp [hx, h]

theorem fsLookup_fsRemove_ne (fs : List (String × FData)) (p p' : String)
    (h : ¬ p' = p) : fsLookup (fsRemove fs p) p' = fsLookup fs p' := by
  unfold fsLookup fsRemove
  rw [find?_filter_of_pred]
  intro x hx
  simp at hx
  simp [hx, h]

theorem mem_fsWrite {fs : List (String × FData)} {p : String} {d : FData}
    {q : String × FData} (h : q ∈ fsWrite fs p d) : q ∈ fs ∨ q = (p, d) := by
  rcases List.mem_append.mp h with h1 | h2
  · exact Or.inl (List.mem_of_mem_filter h1)
  · exact Or.inr (by simpa using h2)

theorem mem_fsRemove {fs : List (String × FData)} {p : String}
    {q : String × FData} (h : q ∈ fsRemove fs p) : q ∈ fs :=
  List.mem_of_mem_filter h

theorem downloadBody_preserves_other (outcome : DlOutcome)
    (fs : List (String × FData)) (target p : String) (h : ¬ p = target) :
    fsLookup (downloadBody outcome fs target).2 p = fsLookup fs p := by
  cases outcome with
  | ok body => exact fsLookup_fsWrite_ne fs target (FData.bin body) p h
  | netFail => exact fsLookup_fsRemove_ne fs target p h
  | writeFail w =>
    cases w with
    | none => exact fsLookup_fsRemove_ne fs target p h
    | some bs =>
      show fsLookup (fsRemove (fsWrite fs target (FData.bin bs)) target) p = fsLookup fs p
      rw [fsLookup_fsRemove_ne _ _ _ h, fsLookup_fsWrite_ne _ _ _ _ h]

/-! ## C4: the downloader's contract -/

/-- C3: a transport/decode failure is caught by the builder: it writes
the minimal error HTML (containing the error message) to
`outputDir/survey_responses.html`, emits the message, and returns that
path; whereas a duplicate-media-key `ValueError` from `get_entries` is
not caught — the build raises it with nothing written (its state still
holds the initial filesystem and no emits). -/
theorem c3_error_handling (bId dId tId mId : String) (net : String → DlOutcome)
    (outputDir : String) (fs0 : List (String × FData)) :
    (∀ cause,
      build_survey_responses_html bId dId tId mId (Except.error cause) net outputDir fs0 =
        BuildResult.ok
          { files := fsWrite fs0 (htmlPath outputDir)
              (FData.text (errorHtml ("Failed to fetch entries: " ++ cause))),
            emitted := ["Failed to fetch entries: " ++ cause], downloads := [] }
          (htmlPath outputDir) ∧
      ("Failed to fetch entries: " ++ cause).data <:+:
        (errorHtml ("Failed to fetch entries: " ++ cause)).data) ∧
    (∀ httpResult m,
      get_entries bId dId tId mId httpResult = Except.error (PyErr.valueError m) →
      build_survey_responses_html bId dId tId mId httpResult net outputDir fs0 =
        BuildResult.raised (PyErr.valueError m)
          { files := fs0, emitted := [], downloads := [] }) := by
  constructor
  · intro cause
    refine ⟨rfl, ?_⟩
    refine ⟨("<html><body><p>Error fetching responses: ").data,
      ("</p></body></html>").data, ?_⟩
    simp [errorHtml, String.data_append]
  · intro httpResult m h
    simp [build_survey_responses_html, h]

theorem c3_error_handling_witness :
    build_survey_responses_html "b" "d" "t" "m" (Except.error "boom") c8net "out" [] =
      BuildResult.ok
        { files := fsWrite [] (htmlPath "out")
            (FData.text (errorHtml ("Failed to fetch entries: " ++ "boom"))),
          emitted := ["Failed to fetch entries: " ++ "boom"], downloads := [] }
        (htmlPath "out") ∧
    get_entries "b" "d" "t" "m" (Except.ok c2payload) =
      Except.error (PyErr.valueError (dupMsg "document.pdf"
        "https://example.com/private/document.pdf"
        "https://other.com/private/document.pdf")) ∧
    build_survey_responses_html "b" "d" "t" "m" (Except.ok c2payload) c8net "out" [] =
      BuildResult.raised
        (PyErr.valueError (dupMsg "document.pdf"
          "https://example.com/private/document.pdf"
          "https://other.com/private/document.pdf"))
        { files := [], emitted := [], downloads := [] } := by
  refine ⟨((c3_error_handling "b" "d" "t" "m" c8net "out" []).1 "boom").1, rfl, ?_⟩
  exact (c3_error_handling "b" "d" "t" "m" c8net "out" []).2 (Except.ok c2payload) _ rfl

/-! ## C6: HTML escaping of user-controlled text -/

theorem replaceChar_append (o : Char) (new l1 l2 : List Char) :
    replaceChar o new (l1 ++ l2) = replaceChar o new l1 ++ replaceChar o new l2 := by
  induction l1 with
  | nil => rfl
  | cons c cs ih => simp [replaceChar, ih]

theorem esc_eq_escSpec (s : String) : esc s = escSpec s := by
  unfold esc escSpec
  congr 1
  induction s.data with
  | nil => rfl
  | cons c cs ih =>
    rw [show replaceChar '&' ("&amp;").data (c :: cs) =
        (if c = '&' then ("&amp;").data else [c]) ++ replaceChar '&' ("&amp;").data cs
      from rfl, replaceChar_append, replaceChar_append, replaceChar_append,
      replaceChar_append, List.map_cons, List.flatten_cons, ih]
    congr 1
    by_cases h1 : c = '&'
    · subst h1
      decide
    · by_cases h2 : c = '<'
      · subst h2
        simp [h1]
        decide
      · by_cases h3 : c = '>'
        · subst h3
          simp [h1, h2]
          decide
        · by_cases h4 : c = '"'
          · subst h4
            simp [h1, h2, h3]
            decide
          · by_cases h5 : c = '\''
            · subst h5
              simp [h1, h2, h3, h4]
              decide
            · simp [replaceChar, h1, h2, h3, h4, h5]

theorem escAll_all_str (l : List JVal) (h : ∀ b ∈ l, JVal.isStr b = true) :
    escAll l = Except.ok (l.map (fun b =>
      esc (match b with | JVal.str s => s | _ => ""))) := by
  induction l with
  | nil => rfl
  | cons v rest ih =>
    rcases (JVal.isStr_iff v).mp (h v (by simp)) with ⟨s, rfl⟩
    simp [escAll, escVal, ih (fun b hb => h b (by simp [hb]))]

/-- C6: every user-controlled text in a rendered row goes through the
five-entity escape — the builder's chained `esc` replaces equals the
single-pass entity substitution the spec words — and for each media
filename the link's href is the escaped but not percent-decoded filename
behind `media/` while the visible text is the percent-decoded then
escaped filename: a row renders exactly as `rowSpec` (provided the raw
breach values are strings, else `esc` raises). -/
theorem c6_escaped_rendering :
    (∀ s, esc s = escSpec s) ∧
    (∀ s, to_link s =
      "<a href=\"media/" ++ escSpec s ++ "\">" ++ escSpec (pyUnquote s) ++ "</a>") ∧
    (∀ e : Entry, (∀ b ∈ e.breaches, JVal.isStr b = true) →
      renderRow e = Except.ok (rowSpec e)) := by
  refine ⟨esc_eq_escSpec, ?_, ?_⟩
  · intro s
    unfold to_link
    rw [esc_eq_escSpec, esc_eq_escSpec]
  · intro e h
    unfold renderRow rowHtml rowSpec
    rw [escAll_all_str e.breaches h]
    have hmapb : (fun b => esc (match b with | JVal.str s => s | _ => "")) =
        (fun b => escSpec (match b with | JVal.str s => s | _ => "")) := by
      funext b
      rw [esc_eq_escSpec]
    have hmapm : (fun p : String × String => to_link p.1) =
        (fun p : String × String =>
          "<a href=\"media/" ++ escSpec p.1 ++ "\">" ++
            escSpec (pyUnquote p.1) ++ "</a>") := by
      funext p
      unfold to_link
      rw [esc_eq_escSpec, esc_eq_escSpec]
    rw [hmapb, hmapm, esc_eq_escSpec e.date, esc_eq_escSpec e.time]

theorem c6_escaped_rendering_witness :
    esc "<script>" = escSpec "<script>" ∧
    escSpec "<script>" = "&lt;script&gt;" ∧
    (∀ b ∈ c6entry.breaches, JVal.isStr b = true) ∧
    renderRow c6entry = Except.ok (rowSpec c6entry) ∧
    rowSpec c6entry =
      "<tr><td>&lt;script&gt;</td><td>2025-11-15</td><td>14:30</td>" ++
      "<td><a href=\"media/a%20b.pdf\">a b.pdf</a></td></tr>" := by
  refine ⟨c6_escaped_rendering.1 "<script>", by decide, by decide, ?_, by decide⟩
  exact c6_escaped_rendering.2.2 c6entry (by decide)

/-! ## C7: the path-traversal guard -/

theorem splitChar_no_sep (sep : Char) (l : List Char) :
    ∀ part ∈ splitChar sep l, sep ∉ part := by
  induction l with
  | nil =>
    intro part hp
    simp [splitChar] at hp
    subst hp
    simp
  | cons c cs ih =>
    intro part hp
    by_cases hc : c = sep
    · simp only [splitChar, if_pos hc] at hp
      rcases List.mem_cons.mp hp with rfl | hp'
      · simp
      · exact ih part hp'
    · simp only [splitChar, if_neg hc] at hp
      rcases hsc : splitChar sep cs with _ | ⟨g, gs⟩
      · rw [hsc] at hp
        have hpc : part = [c] := by simpa using hp
        subst hpc
        simp
        exact fun hce => hc hce.symm
      · rw [hsc] at hp
        rcases List.mem_cons.mp hp with rfl | hp'
        · simp
          refine ⟨fun hce => hc hce.symm, ?_⟩
          exact ih g (by rw [hsc]; exact List.mem_cons_self g gs)
        · exact ih part (by rw [hsc]; exact List.mem_cons_of_mem g hp')

theorem pyPathName_no_slash (s : String) : '/' ∉ (pyPathName s).data := by
  unfold pyPathName
  rcases hg : ((splitChar '/' s.data).filter
      (fun part => !part.isEmpty && part != ['.'])).reverse with _ | ⟨part, rest⟩
  · rw [hg]
    simp
  · rw [hg]
    have hmem : part ∈ (splitChar '/' s.data).filter
        (fun q => !q.isEmpty && q != ['.']) := by
      rw [← List.mem_reverse, hg]
      exact List.mem_cons_self part rest
    exact splitChar_no_sep '/' s.data part (List.mem_of_mem_filter hmem)

theorem goodName_of_guard (s : String)
    (h : (pyPathName s == "" || pyPathName s == "." || pyPathName s == "..") = false) :
    goodName (pyPathName s) := by
  simp [Bool.or_eq_true] at h
  exact ⟨h.1.1, h.1.2, h.2, pyPathName_no_slash s⟩

theorem foldl_preserve {α : Type} (f : BuildState → α → BuildState)
    (P : BuildState → Prop) (hf : ∀ st a, P st → P (f st a)) :
    ∀ (l : List α) (st : BuildState), P st → P (l.foldl f st) := by
  intro l
  induction l with
  | nil => intro st h; exact h
  | cons a l ih => intro st h; exact ih (f st a) (hf st a h)

theorem foldl_emitted_mono {α : Type} (f : BuildState → α → BuildState)
    (mono : ∀ st x m, m ∈ st.emitted → m ∈ (f st x).emitted) :
    ∀ (l : List α) (st : BuildState) (m : String),
      m ∈ st.emitted → m ∈ (l.foldl f st).emitted := by
  intro l
  induction l with
  | nil => intro st m h; exact h
  | cons x l ih => intro st m h; exact ih (f st x) m (mono st x m h)

theorem foldl_emitted_mem {α : Type} (f : BuildState → α → BuildState)
    (mono : ∀ st x m, m ∈ st.emitted → m ∈ (f st x).emitted)
    (Q : BuildState → Prop) (hQ : ∀ st x, Q st → Q (f st x))
    (a : α) (msg : String) (hadd : ∀ st, Q st → msg ∈ (f st a).emitted) :
    ∀ (l : List α) (st : BuildState), Q st → a ∈ l →
      msg ∈ (l.foldl f st).emitted := by
  intro l
  induction l with
  | nil => intro st _ hmem; simp at hmem
  | cons x l ih =>
    intro st hq hmem
    rcases List.mem_cons.mp hmem with rfl | hmem'
    · exact foldl_emitted_mono f mono l (f st a) msg (hadd st hq)
    · exact ih (f st x) (hQ st x hq) hmem'

theorem processPair_emitted_mono (net : String → DlOutcome) (outputDir : String)
    (st : BuildState) (pair : String × String) (m : String) (h : m ∈ st.emitted) :
    m ∈ (processPair net outputDir st pair).emitted := by
  unfold processPair processDownload dlAdopt emitS
  split_ifs <;> simp_all [List.mem_append]

theorem processEntryMedia_emitted_mono (net : String → DlOutcome) (outputDir : String)
    (st : BuildState) (e : Entry) (m : String) (h : m ∈ st.emitted) :
    m ∈ (processEntryMedia net outputDir st e).emitted := by
  unfold processEntryMedia
  split
  · exact h
  · exact foldl_emitted_mono (processPair net outputDir)
      (fun st' x m' h' => processPair_emitted_mono net outputDir st' x m' h')
      e.media_map st m h

theorem processPair_mediaSafe (net : String → DlOutcome) (outputDir : String)
    (D0 : List (String × String)) (F0 : List (String × FData))
    (st : BuildState) (pair : String × String)
    (h : (∀ q ∈ st.downloads, q ∈ D0 ∨
        ∃ n, q.2 = outputDir ++ "/media/" ++ n ∧ goodName n) ∧
      (∀ p ∈ st.files, p ∈ F0 ∨
        ∃ n, p.1 = outputDir ++ "/media/" ++ n ∧ goodName n)) :
    (∀ q ∈ (processPair net outputDir st pair).downloads, q ∈ D0 ∨
        ∃ n, q.2 = outputDir ++ "/media/" ++ n ∧ goodName n) ∧
    (∀ p ∈ (processPair net outputDir st pair).files, p ∈ F0 ∨
        ∃ n, p.1 = outputDir ++ "/media/" ++ n ∧ goodName n) := by
  unfold processPair
  split_ifs with hguard hex
  · exact h
  · exact h
  · unfold processDownload dlAdopt
    have key : ∀ em : List String,
        (∀ q ∈ (st.downloads ++ [(pair.2, mediaTarget outputDir pair.1)]), q ∈ D0 ∨
          ∃ n, q.2 = outputDir ++ "/media/" ++ n ∧ goodName n) ∧
        (∀ p ∈ (downloadBody (net pair.2) st.files
            (mediaTarget outputDir pair.1)).2, p ∈ F0 ∨
          ∃ n, p.1 = outputDir ++ "/media/" ++ n ∧ goodName n) := by
      intro em
      constructor
      · intro q hq
        rcases List.mem_append.mp hq with h1 | h2
        · exact h.1 q h1
        · have hq2 : q = (pair.2, mediaTarget outputDir pair.1) := by simpa using h2
          subst hq2
          exact Or.inr ⟨pyPathName pair.1, rfl,
            goodName_of_guard pair.1 (by simpa using hguard)⟩
      · intro p hp
        have good : ∀ d : FData, p = (mediaTarget outputDir pair.1, d) →
            p ∈ F0 ∨ ∃ n, p.1 = outputDir ++ "/media/" ++ n ∧ goodName n := by
          intro d hpd
          subst hpd
          exact Or.inr ⟨pyPathName pair.1, rfl,
            goodName_of_guard pair.1 (by simpa using hguard)⟩
        rcases hnet : net pair.2 with body | _ | w
        · rw [hnet] at hp
          have hp' : p ∈ fsWrite st.files (mediaTarget outputDir pair.1)
              (FData.bin body) := hp
          rcases mem_fsWrite hp' with h1 | h2
          · exact h.2 p h1
          · exact good (FData.bin body) h2
        · rw [hnet] at hp
          exact h.2 p (mem_fsRemove hp)
        · rw [hnet] at hp
          cases w with
          | none => exact h.2 p (mem_fsRemove hp)
          | some bs =>
            have hp' : p ∈ fsRemove (fsWrite st.files (mediaTarget outputDir pair.1)
                (FData.bin bs)) (mediaTarget outputDir pair.1) := hp
            rcases mem_fsWrite (mem_fsRemove hp') with h1 | h2
            · exact h.2 p h1
            · exact good (FData.bin bs) h2
    split_ifs with hok
    · exact key []
    · exact key []

/-- C7: for every media pair the builder sanitises the filename to its
final path component; a pair whose sanitised name is empty, `.` or `..`
is skipped with the emitted warning; and consequently every downloader
invocation targets `outputDir/media/<n>` for a nonempty, non-dot,
separator-free `n`, and every file the media phase adds lives at such a
path — no download target escapes `outputDir/media`. -/
theorem c7_path_traversal_guard (net : String → DlOutcome) (outputDir : String)
    (fs0 : List (String × FData)) (entries : List Entry) :
    (∀ e ∈ entries, ∀ pr ∈ e.media_map,
      (pyPathName pr.1 == "" || pyPathName pr.1 == "." ||
        pyPathName pr.1 == "..") = true →
      ("Skipping invalid media filename: " ++ pr.1) ∈
        (processAllMedia net outputDir
          { files := fs0, emitted := [], downloads := [] } entries).emitted) ∧
    (∀ q ∈ (processAllMedia net outputDir
        { files := fs0, emitted := [], downloads := [] } entries).downloads,
      ∃ n, q.2 = outputDir ++ "/media/" ++ n ∧ goodName n) ∧
    (∀ p ∈ (processAllMedia net outputDir
        { files := fs0, emitted := [], downloads := [] } entries).files,
      p ∈ fs0 ∨ ∃ n, p.1 = outputDir ++ "/media/" ++ n ∧ goodName n) := by
  have hsafe := foldl_preserve (processEntryMedia net outputDir)
    (fun st => (∀ q ∈ st.downloads, q ∈ ([] : List (String × String)) ∨
        ∃ n, q.2 = outputDir ++ "/media/" ++ n ∧ goodName n) ∧
      (∀ p ∈ st.files, p ∈ fs0 ∨
        ∃ n, p.1 = outputDir ++ "/media/" ++ n ∧ goodName n))
    (by
      intro st e hst
      unfold processEntryMedia
      split
      · exact hst
      · exact foldl_preserve (processPair net outputDir) _
          (fun st' pr h' => processPair_mediaSafe net outputDir [] fs0 st' pr h')
          e.media_map st hst)
    entries { files := fs0, emitted := [], downloads := [] }
    ⟨by simp, fun p hp => Or.inl hp⟩
  refine ⟨?_, ?_, hsafe.2⟩
  · intro e he pr hpr hbad
    refine foldl_emitted_mem (processEntryMedia net outputDir)
      (fun st x m h => processEntryMedia_emitted_mono net outputDir st x m h)
      (fun _ => True) (fun _ _ _ => trivial) e _ ?_ entries
      { files := fs0, emitted := [], downloads := [] } trivial he
    intro st _
    unfold processEntryMedia
    have hne : e.media_map.isEmpty = false := by
      cases hmm : e.media_map with
      | nil => rw [hmm] at hpr; simp at hpr
      | cons x xs => rfl
    rw [if_neg (by simp [hne])]
    refine foldl_emitted_mem (processPair net outputDir)
      (fun st' x m h => processPair_emitted_mono net outputDir st' x m h)
      (fun _ => True) (fun _ _ _ => trivial) pr _ ?_ e.media_map st trivial hpr
    intro st' _
    unfold processPair
    rw [if_pos hbad]
    simp [emitS]
  · intro q hq
    rcases hsafe.1 q hq with h1 | h2
    · simp at h1
    · exact h2

theorem c7_path_traversal_guard_witness :
    (pyPathName "a/.." == "" || pyPathName "a/.." == "." ||
      pyPathName "a/.." == "..") = true ∧
    ("Skipping invalid media filename: " ++ "a/..") ∈
      (processAllMedia c7net "out"
        { files := [], emitted := [], downloads := [] } [c7entry]).emitted ∧
    (∃ n, ("http://x/ok.pdf", "out/media/ok.pdf").2 = "out" ++ "/media/" ++ n ∧
      goodName n) ∧
    (("out/media/ok.pdf", FData.bin [0]) ∈ ([] : List (String × FData)) ∨
      ∃ n, ("out/media/ok.pdf", FData.bin [0]).1 = "out" ++ "/media/" ++ n ∧
        goodName n) := by
  refine ⟨by decide, ?_, ?_, ?_⟩
  · exact (c7_path_traversal_guard c7net "out" [] [c7entry]).1 c7entry (by simp)
      ("a/..", "http://x/a/..") (by simp [c7entry]) (by decide)
  · exact (c7_path_traversal_guard c7net "out" [] [c7entryGood]).2.1
      ("http://x/ok.pdf", "out/media/ok.pdf") (by decide)
  · exact (c7_path_traversal_guard c7net "out" [] [c7entryGood]).2.2
      ("out/media/ok.pdf", FData.bin [0]) (by decide)

/-! ## C8: idempotent re-runs over existing media -/

theorem renderRows_ok_mem (total : Nat) (entries : List Entry) :
    ∀ (idx : Nat) (st st2 : BuildState) (rows : List String),
    renderRows total idx st entries = Except.ok (st2, rows) →
    ∀ e ∈ entries, ∃ row ∈ rows, renderRow e = Except.ok row := by
  induction entries with
  | nil => intro idx st st2 rows h e he; simp at he
  | cons e0 rest ih =>
    intro idx st st2 rows h e he
    rcases hr : renderRow e0 with er | row0
    · simp [renderRows, hr] at h
    · rcases hrec : renderRows total (idx + 1) (emitS st (procMsg idx total)) rest
          with p | q
      · simp [renderRows, hr, hrec] at h
      · obtain ⟨st3, rows'⟩ := q
        simp only [renderRows, hr, hrec] at h
        injection h with h2
        injection h2 with ha hb
        subst ha
        subst hb
        rcases List.mem_cons.mp he with rfl | hmem
        · exact ⟨row0, by simp, hr⟩
        · rcases ih (idx + 1) _ st3 rows' hrec e hmem with ⟨row, hrow, heq⟩
          exact ⟨row, by simp [hrow], heq⟩

theorem renderRows_state (total : Nat) (entries : List Entry) :
    ∀ (idx : Nat) (st : BuildState),
    (∀ st2 rows, renderRows total idx st entries = Except.ok (st2, rows) →
      st2.downloads = st.downloads ∧ st2.files = st.files ∧
      ∀ m ∈ st.emitted, m ∈ st2.emitted) ∧
    (∀ p, renderRows total idx st entries = Except.error p →
      p.2.downloads = st.downloads ∧ p.2.files = st.files ∧
      ∀ m ∈ st.emitted, m ∈ p.2.emitted) := by
  induction entries with
  | nil =>
    intro idx st
    constructor
    · intro st2 rows h
      simp only [renderRows] at h
      injection h with h2
      injection h2 with ha hb
      subst ha
      exact ⟨rfl, rfl, fun m hm => hm⟩
    · intro p h
      simp [renderRows] at h
  | cons e0 rest ih =>
    intro idx st
    have hemit : ∀ m ∈ st.emitted, m ∈ (emitS st (procMsg idx total)).emitted := by
      intro m hm
      simp [emitS, hm]
    constructor
    · intro st2 rows h
      rcases hr : renderRow e0 with er | row0
      · simp [renderRows, hr] at h
      · rcases hrec : renderRows total (idx + 1) (emitS st (procMsg idx total)) rest
            with p | q
        · simp [renderRows, hr, hrec] at h
        · obtain ⟨st3, rows'⟩ := q
          simp only [renderRows, hr, hrec] at h
          injection h with h2
          injection h2 with ha hb
          subst ha
          have hih := (ih (idx + 1) (emitS st (procMsg idx total))).1 st3 rows' hrec
          exact ⟨hih.1, hih.2.1, fun m hm => hih.2.2 m (hemit m hm)⟩
    · intro p h
      rcases hr : renderRow e0 with er | row0
      · simp only [renderRows, hr] at h
        injection h with h2
        subst h2
        exact ⟨rfl, rfl, fun m hm => by simp [emitS, hm]⟩
      · rcases hrec : renderRows total (idx + 1) (emitS st (procMsg idx total)) rest
            with p' | q
        · simp only [renderRows, hr, hrec] at h
          injection h with h2
          subst h2
          have hih := (ih (idx + 1) (emitS st (procMsg idx total))).2 p' hrec
          exact ⟨hih.1, hih.2.1, fun m hm => hih.2.2 m (hemit m hm)⟩
        · obtain ⟨st3, rows'⟩ := q
          simp [renderRows, hr, hrec] at h

theorem mem_joinSep_infix (sep : String) (l : List String) (x : String) (h : x ∈ l) :
    x.data <:+: (joinSep sep l).data := by
  induction l with
  | nil => simp at h
  | cons y rest ih =>
    rcases List.mem_cons.mp h with rfl | hmem
    · cases rest with
      | nil => exact List.infix_refl _
      | cons z zs =>
        refine ⟨[], (sep ++ joinSep sep (z :: zs)).data, ?_⟩
        simp [joinSep, String.data_append, List.append_assoc]
    · cases rest with
      | nil => simp at hmem
      | cons z zs =>
        have hx := ih hmem
        have hsuf : (joinSep sep (z :: zs)).data <:+
            (joinSep sep (y :: z :: zs)).data := by
          refine ⟨(y ++ sep).data, ?_⟩
          simp [joinSep, String.data_append, List.append_assoc]
        exact hx.trans hsuf.isInfix

theorem media_infix_rowHtml (bs : List String) (e : Entry) :
    (joinSep "<br/>" (e.media_map.map (fun p => to_link p.1))).data <:+:
      (rowHtml bs e).data := by
  refine ⟨("<tr><td>" ++ joinSep "<br/>" bs ++ "</td><td>" ++ esc e.date ++
    "</td><td>" ++ esc e.time ++ "</td><td>").data, ("</td></tr>").data, ?_⟩
  simp [rowHtml, String.data_append, List.append_assoc]

set_option maxRecDepth 4000 in
theorem rows_infix_fullHtml (rowsStr : String) :
    rowsStr.data <:+: (fullHtml rowsStr).data := by
  refine ⟨("<!doctype html><html><head><meta charset='utf-8'>" ++
      ("<title>Survey Responses</title></head><body>" ++
        ("<table border='1'><thead><tr><th>Breaches</th><th>Date</th><th>Time</th>" ++
          "<th>Media</th></tr></thead><tbody>"))).data,
    ("</tbody></table>" ++ "</body></html>").data, ?_⟩
  simp [fullHtml, tableHtml, String.data_append, List.append_assoc]

theorem processPair_preserves_QR (net : String → DlOutcome) (outputDir : String)
    (T : String) (st : BuildState) (pair : String × String)
    (h : fsExists st.files T = true ∧ ∀ u', (u', T) ∉ st.downloads) :
    fsExists (processPair net outputDir st pair).files T = true ∧
    ∀ u', (u', T) ∉ (processPair net outputDir st pair).downloads := by
  unfold processPair
  split_ifs with hguard hex2
  · exact h
  · exact h
  · unfold processDownload dlAdopt
    have hTne : ¬ mediaTarget outputDir pair.1 = T := by
      intro hTeq
      rw [hTeq] at hex2
      exact hex2 h.1
    have hfiles : fsExists (downloadBody (net pair.2) st.files
        (mediaTarget outputDir pair.1)).2 T = true := by
      unfold fsExists
      rw [downloadBody_preserves_other (net pair.2) st.files
        (mediaTarget outputDir pair.1) T (fun hc => hTne hc.symm)]
      exact h.1
    have hdl : ∀ u', (u', T) ∉
        st.downloads ++ [(pair.2, mediaTarget outputDir pair.1)] := by
      intro u' hmem
      rcases List.mem_append.mp hmem with h1 | h2
      · exact h.2 u' h1
      · have hp : ((u', T) : String × String) =
            (pair.2, mediaTarget outputDir pair.1) := by simpa using h2
        exact hTne (congrArg Prod.snd hp).symm
    split_ifs with hok
    · exact ⟨hfiles, hdl⟩
    · exact ⟨hfiles, hdl⟩

/-- C8: if the output directory already holds `media/<sanitised name>` for
a media pair of a fetched entry, the re-run emits the "already exists,
skipping download" message for that target, never invokes the downloader
on it, and — when the build completes — the regenerated HTML report still
contains the pair's link (`to_link`). -/
theorem c8_idempotent_rerun (bId dId tId mId : String)
    (httpResult : Except String JVal) (net : String → DlOutcome)
    (outputDir : String) (fs0 : List (String × FData))
    (entries : List Entry) (e : Entry) (suffix url : String)
    (hget : get_entries bId dId tId mId httpResult = Except.ok entries)
    (he : e ∈ entries) (hpr : (suffix, url) ∈ e.media_map)
    (hname : (pyPathName suffix == "" || pyPathName suffix == "." ||
      pyPathName suffix == "..") = false)
    (hex : fsExists fs0 (mediaTarget outputDir suffix) = true) :
    ("Media file already exists, skipping download: " ++
        mediaTarget outputDir suffix) ∈
      (buildStateOf (build_survey_responses_html bId dId tId mId httpResult net
        outputDir fs0)).emitted ∧
    (∀ u', (u', mediaTarget outputDir suffix) ∉
      (buildStateOf (build_survey_responses_html bId dId tId mId httpResult net
        outputDir fs0)).downloads) ∧
    (∀ st2 path, build_survey_responses_html bId dId tId mId httpResult net
        outputDir fs0 = BuildResult.ok st2 path →
      ∃ doc, fsLookup st2.files (htmlPath outputDir) = some (FData.text doc) ∧
        (to_link suffix).data <:+: doc.data) := by
  have hie : entries.isEmpty = false := by
    cases entries with
    | nil => simp at he
    | cons a l => rfl
  have hbuild : build_survey_responses_html bId dId tId mId httpResult net
      outputDir fs0 =
      renderPhase outputDir entries
        (processAllMedia net outputDir
          { files := fs0, emitted := [], downloads := [] } entries) := by
    simp [build_survey_responses_html, hget, hie]
  have hQpres : ∀ (st : BuildState) (e' : Entry),
      (fsExists st.files (mediaTarget outputDir suffix) = true ∧
        ∀ u', (u', mediaTarget outputDir suffix) ∉ st.downloads) →
      fsExists (processEntryMedia net outputDir st e').files
        (mediaTarget outputDir suffix) = true ∧
      ∀ u', (u', mediaTarget outputDir suffix) ∉
        (processEntryMedia net outputDir st e').downloads := by
    intro st e' h'
    unfold processEntryMedia
    split
    · exact h'
    · exact foldl_preserve (processPair net outputDir)
        (fun st' => fsExists st'.files (mediaTarget outputDir suffix) = true ∧
          ∀ u', (u', mediaTarget outputDir suffix) ∉ st'.downloads)
        (fun st' pr h'' => processPair_preserves_QR net outputDir
          (mediaTarget outputDir suffix) st' pr h'')
        e'.media_map st h'
  have hQR := foldl_preserve (processEntryMedia net outputDir)
    (fun st => fsExists st.files (mediaTarget outputDir suffix) = true ∧
      ∀ u', (u', mediaTarget outputDir suffix) ∉ st.downloads)
    (fun st e' h' => hQpres st e' h')
    entries { files := fs0, emitted := [], downloads := [] } ⟨hex, by simp⟩
  have hmsg : ("Media file already exists, skipping download: " ++
      mediaTarget outputDir suffix) ∈
      (processAllMedia net outputDir
        { files := fs0, emitted := [], downloads := [] } entries).emitted := by
    refine foldl_emitted_mem (processEntryMedia net outputDir)
      (fun st x m h => processEntryMedia_emitted_mono net outputDir st x m h)
      (fun st => fsExists st.files (mediaTarget outputDir suffix) = true ∧
        ∀ u', (u', mediaTarget outputDir suffix) ∉ st.downloads)
      (fun st e' h' => hQpres st e' h') e _ ?_ entries
      { files := fs0, emitted := [], downloads := [] } ⟨hex, by simp⟩ he
    intro st hst
    unfold processEntryMedia
    have hne : e.media_map.isEmpty = false := by
      cases hmm : e.media_map with
      | nil => rw [hmm] at hpr; simp at hpr
      | cons x xs => rfl
    rw [if_neg (by simp [hne])]
    refine foldl_emitted_mem (processPair net outputDir)
      (fun st' x m h => processPair_emitted_mono net outputDir st' x m h)
      (fun st' => fsExists st'.files (mediaTarget outputDir suffix) = true ∧
        ∀ u', (u', mediaTarget outputDir suffix) ∉ st'.downloads)
      (fun st' pr h' => processPair_preserves_QR net outputDir
        (mediaTarget outputDir suffix) st' pr h')
      (suffix, url) _ ?_ e.media_map st hst hpr
    intro st' hst'
    unfold processPair
    rw [if_neg (by simp [hname]), if_pos hst'.1]
    simp [emitS]
  rw [hbuild]
  unfold renderPhase
  rcases hrr : renderRows entries.length 1
      (processAllMedia net outputDir
        { files := fs0, emitted := [], downloads := [] } entries) entries
      with p | q
  · have hst := (renderRows_state entries.length entries 1
      (processAllMedia net outputDir
        { files := fs0, emitted := [], downloads := [] } entries)).2 p hrr
    refine ⟨hst.2.2 _ hmsg, ?_, ?_⟩
    · intro u' hmem
      have hmem' : (u', mediaTarget outputDir suffix) ∈ p.2.downloads := hmem
      rw [hst.1] at hmem'
      exact hQR.2 u' hmem'
    · intro st2 path hok
      simp at hok
  · obtain ⟨st2, rows⟩ := q
    have hst := (renderRows_state entries.length entries 1
      (processAllMedia net outputDir
        { files := fs0, emitted := [], downloads := [] } entries)).1 st2 rows hrr
    refine ⟨?_, ?_, ?_⟩
    · show _ ∈ (emitS (writeHtml outputDir (fullHtml (joinSep "" rows)) st2) _).emitted
      simp [emitS, writeHtml]
      exact Or.inl (hst.2.2 _ hmsg)
    · intro u' hmem
      have : (u', mediaTarget outputDir suffix) ∈ st2.downloads := hmem
      rw [hst.1] at this
      exact hQR.2 u' this
    · intro st2' path hok
      injection hok with ha hb
      subst ha
      have hfind : fsLookup (emitS (writeHtml outputDir (fullHtml (joinSep "" rows))
          st2) "Done. Output written to survey_responses.html").files
          (htmlPath outputDir) = some (FData.text (fullHtml (joinSep "" rows))) := by
        show fsLookup (fsWrite st2.files (htmlPath outputDir)
          (FData.text (fullHtml (joinSep "" rows)))) (htmlPath outputDir) = _
        exact fsLookup_fsWrite_self _ _ _
      refine ⟨fullHtml (joinSep "" rows), hfind, ?_⟩
      rcases renderRows_ok_mem entries.length entries 1 _ st2 rows hrr e he
        with ⟨row, hrow, heq⟩
      rcases hea : escAll e.breaches with er | bs
      · simp [renderRow, hea] at heq
      · have hroweq : rowHtml bs e = row := by
          simpa [renderRow, hea] using heq
        have h1 : (to_link suffix).data <:+:
            (joinSep "<br/>" (e.media_map.map (fun p => to_link p.1))).data :=
          mem_joinSep_infix _ _ _ (List.mem_map.mpr ⟨(suffix, url), hpr, rfl⟩)
        have h2 := media_infix_rowHtml bs e
        rw [hroweq] at h2
        have h3 : row.data <:+: (joinSep "" rows).data :=
          mem_joinSep_infix "" rows row hrow
        exact ((h1.trans h2).trans h3).trans (rows_infix_fullHtml (joinSep "" rows))

theorem c8_idempotent_rerun_witness :
    get_entries "b" "d" "t" "m" (Except.ok c8payload) = Except.ok [c8entry] ∧
    fsExists c8fs (mediaTarget "out" "doc.pdf") = true ∧
    ("Media file already exists, skipping download: " ++
        mediaTarget "out" "doc.pdf") ∈
      (buildStateOf (build_survey_responses_html "b" "d" "t" "m"
        (Except.ok c8payload) c8net "out" c8fs)).emitted ∧
    (∀ u', (u', mediaTarget "out" "doc.pdf") ∉
      (buildStateOf (build_survey_responses_html "b" "d" "t" "m"
        (Except.ok c8payload) c8net "out" c8fs)).downloads) ∧
    ∃ st2 path, build_survey_responses_html "b" "d" "t" "m"
        (Except.ok c8payload) c8net "out" c8fs = BuildResult.ok st2 path ∧
      ∃ doc, fsLookup st2.files (htmlPath "out") = some (FData.text doc) ∧
        (to_link "doc.pdf").data <:+: doc.data := by
  have main := c8_idempotent_rerun "b" "d" "t" "m" (Except.ok c8payload) c8net
    "out" c8fs [c8entry] c8entry "doc.pdf" "https://x/private/doc.pdf"
    rfl (by simp) (by simp [c8entry]) (by decide) (by decide)
  refine ⟨rfl, by decide, main.1, main.2.1, ?_⟩
  cases hb : build_survey_responses_html "b" "d" "t" "m"
      (Except.ok c8payload) c8net "out" c8fs with
  | ok st2 path => exact ⟨st2, path, rfl, main.2.2 st2 path hb⟩
  | raised er st =>
    exfalso
    have hshape : (match build_survey_responses_html "b" "d" "t" "m"
        (Except.ok c8payload) c8net "out" c8fs with
      | BuildResult.ok _ _ => true
      | BuildResult.raised _ _ => false) = true := by decide
    rw [hb] at hshape
    simp at hshape

end SurveyExporter
